import Mathlib

/-!
Verification of the metric-aggregation core of the mcp-repo-data-tracker
repository.  All JavaScript numbers are modelled as exact rationals (`ℚ`),
timestamps (millisecond values of `Date.getTime()`) as integers (`ℤ`), and
JavaScript strings as Lean `String`s (logins and file names in this code are
ASCII).  Fallible code is modelled with `Except`/`Option`.
-/

namespace RepoTracker

/-- Model of JavaScript `Math.round`: nearest integer, halves toward +∞. -/
def mathRound (q : ℚ) : ℤ := ⌊q + 1 / 2⌋

/-- Model of `round(value, decimals)` from `src/utils/stats.ts`:
`Math.round(value * factor) / factor` with `factor = 10 ^ decimals`. -/
def roundTo (decimals : ℕ) (value : ℚ) : ℚ :=
  (mathRound (value * 10 ^ decimals) : ℚ) / 10 ^ decimals

/-- Model of `average` from `src/utils/stats.ts`: 0 for the empty list,
otherwise `reduce((sum, v) => sum + v, 0) / length`. -/
def average (values : List ℚ) : ℚ :=
  if values.length = 0 then 0
  else values.foldl (fun sum v => sum + v) 0 / values.length

/-- Model of `percentile(sortedValues, p)` from `src/utils/stats.ts`
(linear interpolation between adjacent elements of the sorted list). -/
def percentile (sortedValues : List ℚ) (p : ℚ) : ℚ :=
  if sortedValues.length = 0 then 0
  else if sortedValues.length = 1 then sortedValues.getD 0 0
  else
    let index : ℚ := p / 100 * ((sortedValues.length : ℚ) - 1)
    let lower : ℤ := ⌊index⌋
    let upper : ℤ := ⌈index⌉
    let weight : ℚ := index - (lower : ℚ)
    if (sortedValues.length : ℤ) ≤ upper then
      sortedValues.getD (sortedValues.length - 1) 0
    else
      sortedValues.getD lower.toNat 0 * (1 - weight) +
        sortedValues.getD upper.toNat 0 * weight

/-- Model of `median` from `src/utils/stats.ts`: sort ascending (JavaScript
`sort((a, b) => a - b)` is a stable sort) and take the 50th percentile. -/
def median (values : List ℚ) : ℚ :=
  if values.length = 0 then 0
  else percentile (values.mergeSort (fun a b => decide (a ≤ b))) 50

/-- Helper: the interpolation branch of `percentile` as a function of the
fractional index. -/
def interp (s : List ℚ) (x : ℚ) : ℚ :=
  s.getD ⌊x⌋.toNat 0 * (1 - (x - (⌊x⌋ : ℚ))) + s.getD ⌈x⌉.toNat 0 * (x - (⌊x⌋ : ℚ))

theorem percentile_eq_interp (s : List ℚ) (p : ℚ) (h2 : 2 ≤ s.length)
    (hub : ⌈p / 100 * ((s.length : ℚ) - 1)⌉ < (s.length : ℤ)) :
    percentile s p = interp s (p / 100 * ((s.length : ℚ) - 1)) := by
  unfold percentile interp
  have h0 : ¬ s.length = 0 := by omega
  have h1 : ¬ s.length = 1 := by omega
  simp only [h0, h1, if_false, if_neg (not_le.mpr hub)]

theorem sorted_getD_mono {s : List ℚ} (hs : s.Sorted (· ≤ ·)) {a b : ℕ}
    (hab : a ≤ b) (hb : b < s.length) : s.getD a 0 ≤ s.getD b 0 := by
  have ha : a < s.length := lt_of_le_of_lt hab hb
  rw [s.getD_eq_getElem 0 ha, s.getD_eq_getElem 0 hb]
  rcases eq_or_lt_of_le hab with h | h
  · subst h; exact le_refl _
  · exact List.pairwise_iff_getElem.mp hs a b ha hb h

theorem interp_bounds {s : List ℚ} (hs : s.Sorted (· ≤ ·)) {x : ℚ}
    (h0 : 0 ≤ x) (hx : ⌈x⌉ < (s.length : ℤ)) :
    s.getD ⌊x⌋.toNat 0 ≤ interp s x ∧ interp s x ≤ s.getD ⌈x⌉.toNat 0 := by
  have hf0 : (0 : ℤ) ≤ ⌊x⌋ := Int.floor_nonneg.mpr h0
  have hfc : ⌊x⌋ ≤ ⌈x⌉ := Int.floor_le_ceil x
  have hcn : ⌈x⌉.toNat < s.length := by omega
  have hfcn : ⌊x⌋.toNat ≤ ⌈x⌉.toNat := by omega
  have hAB : s.getD ⌊x⌋.toNat 0 ≤ s.getD ⌈x⌉.toNat 0 :=
    sorted_getD_mono hs hfcn hcn
  have hw0 : 0 ≤ x - (⌊x⌋ : ℚ) := by
    have := Int.floor_le x; linarith
  have hw1 : x - (⌊x⌋ : ℚ) ≤ 1 := by
    have := Int.lt_floor_add_one x; linarith
  unfold interp
  constructor <;> nlinarith [hAB, hw0, hw1]

theorem interp_mono {s : List ℚ} (hs : s.Sorted (· ≤ ·)) {x y : ℚ}
    (h0 : 0 ≤ x) (hxy : x ≤ y) (hy : ⌈y⌉ < (s.length : ℤ)) :
    interp s x ≤ interp s y := by
  have h0y : 0 ≤ y := le_trans h0 hxy
  have hcc : ⌈x⌉ ≤ ⌈y⌉ := Int.ceil_le_ceil hxy
  have hx : ⌈x⌉ < (s.length : ℤ) := lt_of_le_of_lt hcc hy
  by_cases hcf : ⌈x⌉ ≤ ⌊y⌋
  · -- the two indices interpolate on disjoint or adjacent segments
    have hb1 := interp_bounds hs h0 hx
    have hb2 := interp_bounds hs h0y hy
    have hf0y : (0 : ℤ) ≤ ⌊y⌋ := Int.floor_nonneg.mpr h0y
    have hfyn : ⌊y⌋.toNat < s.length := by
      have := Int.floor_le_ceil y; omega
    have hmid : s.getD ⌈x⌉.toNat 0 ≤ s.getD ⌊y⌋.toNat 0 :=
      sorted_getD_mono hs (by omega) hfyn
    exact le_trans hb1.2 (le_trans hmid hb2.1)
  · -- both indices lie in the same unit segment
    push_neg at hcf
    have hff : ⌊x⌋ ≤ ⌊y⌋ := Int.floor_le_floor hxy
    have hc1 : ⌈x⌉ ≤ ⌊x⌋ + 1 := Int.ceil_le_floor_add_one x
    have hcx : ⌈x⌉ = ⌊y⌋ + 1 := by omega
    have hfx : ⌊x⌋ = ⌊y⌋ := by omega
    have hcy : ⌈y⌉ = ⌊y⌋ + 1 := by
      have h1 : ⌈y⌉ ≤ ⌊y⌋ + 1 := Int.ceil_le_floor_add_one y
      have h2 : ⌈x⌉ ≤ ⌈y⌉ := hcc
      omega
    have hf0 : (0 : ℤ) ≤ ⌊x⌋ := Int.floor_nonneg.mpr h0
    have hcn : ⌈x⌉.toNat < s.length := by omega
    have hAB : s.getD ⌊x⌋.toNat 0 ≤ s.getD ⌈x⌉.toNat 0 :=
      sorted_getD_mono hs (by omega) hcn
    unfold interp
    rw [hcy, ← hcx, ← hfx]
    nlinarith [mul_nonneg (sub_nonneg.mpr hxy) (sub_nonneg.mpr hAB)]

theorem percentile_nil (p : ℚ) : percentile [] p = 0 := rfl

theorem percentile_single (x p : ℚ) : percentile [x] p = x := rfl

theorem percentile_ceil_lt {s : List ℚ} {p : ℚ} (hp : p ≤ 100)
    (h2 : 2 ≤ s.length) : ⌈p / 100 * ((s.length : ℚ) - 1)⌉ < (s.length : ℤ) := by
  have h1 : p / 100 * ((s.length : ℚ) - 1) ≤ (s.length : ℚ) - 1 := by
    have hlen1 : (1 : ℚ) ≤ (s.length : ℚ) := by exact_mod_cast (by omega : 1 ≤ s.length)
    nlinarith
  have : ⌈p / 100 * ((s.length : ℚ) - 1)⌉ ≤ (s.length : ℤ) - 1 := by
    rw [Int.ceil_le]; push_cast; linarith
  omega

theorem percentile_mono {s : List ℚ} (hs : s.Sorted (· ≤ ·)) {p q : ℚ}
    (hp : 0 ≤ p) (hpq : p ≤ q) (hq : q ≤ 100) :
    percentile s p ≤ percentile s q := by
  rcases Nat.lt_or_ge s.length 2 with h2 | h2
  · interval_cases h : s.length
    · unfold percentile; simp [h]
    · unfold percentile; simp [h]
  · have hq0 : 0 ≤ q := le_trans hp hpq
    have hp100 : p ≤ 100 := le_trans hpq hq
    have hcp := percentile_ceil_lt hp100 h2
    have hcq := percentile_ceil_lt hq h2
    rw [percentile_eq_interp s p h2 hcp, percentile_eq_interp s q h2 hcq]
    have hlen1 : (1 : ℚ) ≤ (s.length : ℚ) := by exact_mod_cast (by omega : 1 ≤ s.length)
    have hL : (0 : ℚ) ≤ (s.length : ℚ) - 1 := by linarith
    have hx0 : 0 ≤ p / 100 * ((s.length : ℚ) - 1) :=
      mul_nonneg (by positivity) hL
    have hxy : p / 100 * ((s.length : ℚ) - 1) ≤ q / 100 * ((s.length : ℚ) - 1) :=
      mul_le_mul_of_nonneg_right (by linarith) hL
    exact interp_mono hs hx0 hxy hcq

theorem percentile_even_median {s : List ℚ} (k : ℕ) (hk : 1 ≤ k)
    (hlen : s.length = 2 * k) :
    percentile s 50 = (s.getD (k - 1) 0 + s.getD k 0) / 2 := by
  have h2 : 2 ≤ s.length := by omega
  have hidx : (50 : ℚ) / 100 * ((s.length : ℚ) - 1) = (k : ℚ) - 1 / 2 := by
    rw [hlen]; push_cast; ring
  have hfl : ⌊(k : ℚ) - 1 / 2⌋ = (k : ℤ) - 1 := by
    rw [Int.floor_eq_iff]
    push_cast
    constructor <;> linarith
  have hcl : ⌈(k : ℚ) - 1 / 2⌉ = (k : ℤ) := by
    rw [Int.ceil_eq_iff]
    push_cast
    have hk1 : (1 : ℚ) ≤ (k : ℚ) := by exact_mod_cast hk
    constructor <;> linarith
  have hub : ⌈(50 : ℚ) / 100 * ((s.length : ℚ) - 1)⌉ < (s.length : ℤ) := by
    rw [hidx, hcl, hlen]; push_cast; omega
  rw [percentile_eq_interp s 50 h2 hub]
  unfold interp
  rw [hidx, hfl, hcl]
  have h1 : ((k : ℤ) - 1).toNat = k - 1 := by omega
  have h2' : ((k : ℤ)).toNat = k := by omega
  rw [h1, h2']
  have hw : ((k : ℚ) - 1 / 2) - (((k : ℤ) - 1 : ℤ) : ℚ) = 1 / 2 := by push_cast; ring
  rw [hw]; ring

/-- C3: `percentile([], p) = 0` and `percentile([x], p) = x` for every `p`;
on an even-length sorted list `percentile(sorted, 50)` is the mean of the two
middle elements; and for a fixed sorted list `percentile` is monotonically
non-decreasing in `p` on `[0, 100]`. -/
theorem C3_percentile_spec :
    (∀ p : ℚ, percentile [] p = 0) ∧
    (∀ x p : ℚ, percentile [x] p = x) ∧
    (∀ s : List ℚ, s.Sorted (· ≤ ·) → Even s.length → 0 < s.length →
      percentile s 50 = (s.getD (s.length / 2 - 1) 0 + s.getD (s.length / 2) 0) / 2) ∧
    (∀ (s : List ℚ) (p q : ℚ), s.Sorted (· ≤ ·) → 0 ≤ p → p ≤ q → q ≤ 100 →
      percentile s p ≤ percentile s q) := by
  refine ⟨percentile_nil, percentile_single, ?_, ?_⟩
  · intro s _ heven hpos
    obtain ⟨k, hk⟩ := heven
    have hk1 : 1 ≤ k := by omega
    have hlen : s.length = 2 * k := by omega
    have hdiv : s.length / 2 = k := by omega
    rw [hdiv]
    exact percentile_even_median k hk1 hlen
  · intro s p q hs hp hpq hq
    exact percentile_mono hs hp hpq hq

/-- C3 witness: the theorem applied at concrete inputs. -/
theorem C3_percentile_spec_witness :
    percentile [(1 : ℚ), 3] 50 = 2 ∧ percentile [(1 : ℚ), 3] 10 ≤ percentile [(1 : ℚ), 3] 60 := by
  have h := C3_percentile_spec
  constructor
  · have h3 := h.2.2.1 [(1 : ℚ), 3] (by norm_num [List.sorted_cons]) (by decide) (by decide)
    norm_num at h3
    exact h3
  · exact h.2.2.2 [(1 : ℚ), 3] 10 60 (by norm_num [List.sorted_cons])
      (by norm_num) (by norm_num) (by norm_num)

/-- Model of JavaScript `String.prototype.includes` on character lists. -/
def charsContain : List Char → List Char → Bool
  | [], sub => sub.isEmpty
  | c :: t, sub => sub.isPrefixOf (c :: t) || charsContain t sub

/-- Model of substring containment on strings. -/
def strContains (s sub : String) : Bool := charsContain s.toList sub.toList

/-- Model of JavaScript `toLowerCase` (ASCII range, which covers the logins
and messages handled by this code). -/
def lowerStr (s : String) : String := String.mk (s.toList.map Char.toLower)

/-- Model of JavaScript `String.prototype.endsWith`. -/
def strEndsWith (s suffix : String) : Bool :=
  suffix.toList.reverse.isPrefixOf s.toList.reverse

/-- Model of the KNOWN_BOTS set from `src/utils/bots.ts`. -/
def KNOWN_BOTS : List String :=
  ["dependabot", "dependabot[bot]", "github-actions", "github-actions[bot]",
   "renovate", "renovate[bot]", "codecov", "codecov[bot]",
   "semantic-release-bot", "greenkeeper[bot]", "snyk-bot", "imgbot",
   "imgbot[bot]", "allcontributors", "allcontributors[bot]", "stale",
   "stale[bot]"]

/-- Model of `isBot(login)` from `src/utils/bots.ts`: a missing (or empty,
hence falsy) login is a bot; otherwise lowercase the login and test known-bot
membership or a `[bot]` suffix. -/
def isBot (login : Option String) : Bool :=
  match login with
  | none => true
  | some l =>
    if l = "" then true
    else KNOWN_BOTS.contains (lowerStr l) || strEndsWith (lowerStr l) "[bot]"

/-- Model of a GitHub issue/PR comment: `createdAt` timestamp (ms) and the
author login (`none` when the account was deleted, i.e. `author` is null). -/
structure GitHubComment where
  createdAt : ℤ
  author : Option String
deriving Repr, DecidableEq

/-- Model of a timeline event as returned by the issues GraphQL query.
`typename` is the `__typename` key (absent when not selected by the query)
and `createdAt` is the `createdAt` key (`isSome` exactly when the key is
present on the object, which is what JavaScript `'createdAt' in event`
tests). -/
structure GitHubTimelineEvent where
  typename : Option String
  createdAt : Option ℤ
deriving Repr, DecidableEq

/-- Model of a GitHub issue restricted to the fields the issue metric
calculator reads. -/
structure GitHubIssue where
  number : ℕ
  title : String
  createdAt : ℤ
  updatedAt : ℤ
  closedAt : Option ℤ
  author : Option String
  labels : List String
  comments : List GitHubComment
  commentsTotalCount : ℕ
  timelineItems : List GitHubTimelineEvent
deriving Repr, DecidableEq

/-- Model of the comment filter inside `getTimeToFirstMaintainerResponse`
(`src/metrics/issues.ts`): reject authorless comments, self-comments, bots,
and non-maintainers. -/
def eligibleComment (issueAuthor : Option String) (maintainerSet : List String)
    (comment : GitHubComment) : Bool :=
  match comment.author with
  | none => false
  | some author =>
    if author = "" then false
    else if issueAuthor = some author then false
    else if isBot (some author) then false
    else maintainerSet.contains author

/-- Model of `getTimeToFirstMaintainerResponse` from `src/metrics/issues.ts`:
filter to eligible maintainer comments, sort ascending by `createdAt`
(stable JavaScript sort), and return first response time minus issue
creation time, or null. -/
def getTimeToFirstMaintainerResponse (issue : GitHubIssue)
    (maintainerSet : List String) : Option ℤ :=
  let eligibleComments :=
    (issue.comments.filter (eligibleComment issue.author maintainerSet)).mergeSort
      (fun a b => decide (a.createdAt ≤ b.createdAt))
  match eligibleComments with
  | [] => none
  | first :: _ => some (first.createdAt - issue.createdAt)

theorem eligibleComment_isBot_false {a : Option String} {m : List String}
    {c : GitHubComment} (h : eligibleComment a m c = true) :
    isBot c.author = false := by
  unfold eligibleComment at h
  cases hc : c.author with
  | none => rw [hc] at h; simp at h
  | some l =>
    rw [hc] at h
    by_cases h1 : l = "" <;> simp [h1] at h
    by_cases h2 : a = some l <;> simp [h2] at h
    by_cases h3 : isBot (some l) = true
    · simp [h3] at h
    · simpa [isBot, h1] using h3

/-- C10: an authorless comment (deleted account) never qualifies as a
maintainer response — `isBot` treats a missing login as a bot and the
comment filter rejects authorless comments — and any login ending in
`[bot]` (case-insensitively) or present in the known-bot list is a bot,
so dropping all bot/authorless comments never changes
`getTimeToFirstMaintainerResponse`. -/
theorem C10_bot_and_authorless_never_respond :
    (isBot none = true) ∧
    (∀ (a : Option String) (m : List String) (c : GitHubComment),
      c.author = none → eligibleComment a m c = false) ∧
    (∀ (a : Option String) (m : List String) (c : GitHubComment) (l : String),
      c.author = some l → isBot (some l) = true → eligibleComment a m c = false) ∧
    (∀ l : String, strEndsWith (lowerStr l) "[bot]" = true → isBot (some l) = true) ∧
    (∀ l : String, KNOWN_BOTS.contains (lowerStr l) = true → isBot (some l) = true) ∧
    (∀ (issue : GitHubIssue) (m : List String),
      getTimeToFirstMaintainerResponse
        { issue with comments := issue.comments.filter (fun c => !(isBot c.author)) } m =
      getTimeToFirstMaintainerResponse issue m) := by
  refine ⟨rfl, ?_, ?_, ?_, ?_, ?_⟩
  · intro a m c h
    unfold eligibleComment
    rw [h]
  · intro a m c l hl hbot
    unfold eligibleComment
    rw [hl]
    by_cases h1 : l = ""
    · simp [h1]
    · by_cases h2 : a = some l <;> simp [h1, h2, hbot]
  · intro l h
    by_cases h0 : l = ""
    · subst h0
      exact absurd h (by decide)
    · simp [isBot, h0, h]
  · intro l h
    by_cases h0 : l = ""
    · subst h0
      exact absurd h (by decide)
    · unfold isBot
      simp only [h0, if_false, h, Bool.true_or]
  · intro issue m
    unfold getTimeToFirstMaintainerResponse
    have hff : (issue.comments.filter (fun c => !(isBot c.author))).filter
        (eligibleComment issue.author m) =
        issue.comments.filter (eligibleComment issue.author m) := by
      rw [List.filter_filter]
      apply List.filter_congr
      intro c _
      by_cases he : eligibleComment issue.author m c = true
      · have := eligibleComment_isBot_false he
        simp [he, this]
      · simp [eq_false_of_ne_true he]
    simp only [hff]

/-- C10 witness: the theorem applied at a concrete comment and issue. -/
theorem C10_bot_and_authorless_never_respond_witness :
    eligibleComment (some "alice") ["bob"]
      { createdAt := 5, author := none } = false := by
  have h := C10_bot_and_authorless_never_respond
  exact h.2.1 (some "alice") ["bob"] { createdAt := 5, author := none } rfl

/-- Model of `hasBeenReopened` from `src/metrics/issues.ts`: an issue counts
as reopened when some timeline event has `__typename === 'ReopenedEvent'`
or — via the `||` — merely has a `createdAt` key. -/
def hasBeenReopened (issue : GitHubIssue) : Bool :=
  issue.timelineItems.any (fun event =>
    event.typename == some "ReopenedEvent" || event.createdAt.isSome)

/-- Model of the reopen-rate computation of `calculateIssueMetrics`
(`src/metrics/issues.ts` lines 177–179): fraction of closed issues for
which `hasBeenReopened` holds, rounded to 2 decimals, 0 when there are no
closed issues. -/
def reopenRateOfClosed (closedIssues : List GitHubIssue) : ℚ :=
  let reopenedCount := (closedIssues.filter hasBeenReopened).length
  if 0 < closedIssues.length then
    roundTo 2 ((reopenedCount : ℚ) / (closedIssues.length : ℚ))
  else 0

/-- Concrete closed issue whose timeline holds exactly one event: a
`ClosedEvent` as the GraphQL query returns it (only `createdAt` selected,
so `__typename` is absent and `createdAt` is present). -/
def closedIssueWithClosedEvent : GitHubIssue :=
  { number := 1, title := "t", createdAt := 0, updatedAt := 10,
    closedAt := some 10, author := some "alice", labels := [],
    comments := [], commentsTotalCount := 0,
    timelineItems := [{ typename := none, createdAt := some 10 }] }

/-- C1 (code bug): a closed issue whose timeline contains no
`ReopenedEvent` — only a `ClosedEvent` carrying a `createdAt` key — still
makes `hasBeenReopened` true, so `reopen_rate` is 1 where the claim (and
the function's own doc comment) require 0. -/
theorem C1_reopen_rate_counts_any_timeline_event :
    (∀ e ∈ closedIssueWithClosedEvent.timelineItems,
      e.typename ≠ some "ReopenedEvent") ∧
    hasBeenReopened closedIssueWithClosedEvent = true ∧
    reopenRateOfClosed [closedIssueWithClosedEvent] = 1 := by
  refine ⟨by decide, by decide, ?_⟩
  unfold reopenRateOfClosed
  norm_num [closedIssueWithClosedEvent, hasBeenReopened, List.filter,
    roundTo, mathRound]

/-- Model of a JavaScript `Error` as inspected by `isRetriableError`
(`src/github/client.ts`): its message and its optional numeric `status`. -/
structure JsError where
  message : String
  status : Option ℕ
deriving Repr, DecidableEq

/-- Rate-limit condition of `isRetriableError` (first branch). -/
def isRateLimitErr (e : JsError) : Bool :=
  strContains (lowerStr e.message) "rate limit" ||
    strContains (lowerStr e.message) "secondary rate limit" ||
    e.status == some 403

/-- Timeout condition of `isRetriableError` (second branch). -/
def isTimeoutErr (e : JsError) : Bool :=
  strContains (lowerStr e.message) "couldn\x27t respond" ||
    strContains (lowerStr e.message) "time" ||
    strContains (lowerStr e.message) "timeout" ||
    strContains (lowerStr e.message) "timed out"

/-- Server-error (5xx) condition of `isRetriableError` (third branch);
`status && ...` means a present, non-zero status. -/
def isServerErr (e : JsError) : Bool :=
  match e.status with
  | none => false
  | some s => !(s == 0) && decide (500 ≤ s) && decide (s < 600)

/-- Network condition of `isRetriableError` (fourth branch). -/
def isNetworkErr (e : JsError) : Bool :=
  strContains (lowerStr e.message) "econnreset" ||
    strContains (lowerStr e.message) "enotfound" ||
    strContains (lowerStr e.message) "socket" ||
    strContains (lowerStr e.message) "network"

/-- Model of `isRetriableError` from `src/github/client.ts`: classify an
error as retriable (with a reason) or fatal. -/
def isRetriableError (error : JsError) : Bool × String :=
  let message := lowerStr error.message
  let status := error.status
  if strContains message "rate limit" || strContains message "secondary rate limit" ||
      status == some 403 then
    (true, "rate limit")
  else if strContains message "couldn\x27t respond" || strContains message "time" ||
      strContains message "timeout" || strContains message "timed out" then
    (true, "timeout")
  else if (match status with
           | none => false
           | some s => !(s == 0) && decide (500 ≤ s) && decide (s < 600)) then
    (true, "server error")
  else if strContains message "econnreset" || strContains message "enotfound" ||
      strContains message "socket" || strContains message "network" then
    (true, "network error")
  else (false, "")

/-- Model of the retry loop of `withRetry` (`src/github/client.ts`),
parametrised by the outcome of each individual call of `fn` (`outcomes k`
is what the (k+1)-th call returns or throws).  `fuel` is the number of
attempts still allowed after the current one (`maxRetries - attempt`).
The result pairs the final outcome with the list of delays slept, in
order. -/
def withRetryGo (outcomes : ℕ → Except JsError α) (baseDelayMs : ℕ) :
    ℕ → ℕ → Except JsError α × List ℕ
  | attempt, fuel =>
    match outcomes attempt, fuel with
    | .ok v, _ => (.ok v, [])
    | .error e, 0 => (.error e, [])
    | .error e, fuel' + 1 =>
      if (isRetriableError e).1 then
        let delayMs := baseDelayMs * 2 ^ attempt
        let rest := withRetryGo outcomes baseDelayMs (attempt + 1) fuel'
        (rest.1, delayMs :: rest.2)
      else (.error e, [])

/-- Model of `withRetry` from `src/github/client.ts`: attempts
`0 .. maxRetries`; a fatal error or the failure of the last attempt
propagates unmodified; otherwise sleep `baseDelayMs * 2 ^ attempt` and
retry. -/
def withRetry (outcomes : ℕ → Except JsError α) (maxRetries : ℕ := 5)
    (baseDelayMs : ℕ := 3000) : Except JsError α × List ℕ :=
  withRetryGo outcomes baseDelayMs 0 maxRetries

theorem withRetryGo_all_fail {α : Type} (outcomes : ℕ → Except JsError α)
    (baseDelayMs : ℕ) :
    ∀ (fuel attempt : ℕ),
      (∀ k, attempt ≤ k → k ≤ attempt + fuel →
        ∃ e, outcomes k = .error e ∧ (isRetriableError e).1 = true) →
      ∃ e, outcomes (attempt + fuel) = .error e ∧
        withRetryGo outcomes baseDelayMs attempt fuel =
          (.error e, (List.range' attempt fuel).map fun k => baseDelayMs * 2 ^ k) := by
  intro fuel
  induction fuel with
  | zero =>
    intro attempt h
    obtain ⟨e, he, hr⟩ := h attempt (le_refl _) (by omega)
    refine ⟨e, by simpa using he, ?_⟩
    unfold withRetryGo
    rw [he]
    rfl
  | succ fuel ih =>
    intro attempt h
    obtain ⟨e0, he0, hr0⟩ := h attempt (le_refl _) (by omega)
    obtain ⟨e, he, hgo⟩ := ih (attempt + 1) (fun k hk1 hk2 => h k (by omega) (by omega))
    refine ⟨e, by rw [show attempt + (fuel + 1) = attempt + 1 + fuel by omega]; exact he, ?_⟩
    unfold withRetryGo
    rw [he0]
    simp only [hr0, if_true, hgo, List.range']
    rfl

/-- C5: `isRetriableError` marks an error retriable exactly when it is a
rate-limit, timeout, 5xx-server, or network error; any fatal error — in
particular a 4xx other than rate limiting that matches none of the
transient message patterns — propagates unmodified with no retry; when
every attempt fails retriably the loop performs exactly `maxRetries`
retries, the delay preceding retry `k` (k = 0, 1, …) being
`baseDelayMs * 2 ^ k`, and the last attempt's failure propagates
unmodified. -/
theorem C5_withRetry_spec :
    (∀ e : JsError, (isRetriableError e).1 =
      (isRateLimitErr e || isTimeoutErr e || isServerErr e || isNetworkErr e)) ∧
    (∀ (α : Type) (e : JsError) (outcomes : ℕ → Except JsError α)
        (maxRetries baseDelayMs : ℕ),
      (isRetriableError e).1 = false → outcomes 0 = .error e →
      withRetry outcomes maxRetries baseDelayMs = (.error e, [])) ∧
    (∀ (e : JsError) (s : ℕ), e.status = some s → 400 ≤ s → s < 500 →
      isRateLimitErr e = false → isTimeoutErr e = false → isNetworkErr e = false →
      (isRetriableError e).1 = false) ∧
    (∀ (α : Type) (outcomes : ℕ → Except JsError α) (maxRetries baseDelayMs : ℕ),
      (∀ k, k ≤ maxRetries →
        ∃ e, outcomes k = .error e ∧ (isRetriableError e).1 = true) →
      ∃ e, outcomes maxRetries = .error e ∧
        withRetry outcomes maxRetries baseDelayMs =
          (.error e, (List.range maxRetries).map fun k => baseDelayMs * 2 ^ k)) := by
  refine ⟨?_, ?_, ?_, ?_⟩
  · intro e
    unfold isRetriableError isRateLimitErr isTimeoutErr isServerErr isNetworkErr
    rcases e with ⟨msg, st⟩
    dsimp only
    split_ifs with h1 h2 h3 h4 <;>
      simp_all [Bool.or_eq_true, Bool.not_eq_true, Bool.or_eq_false_iff]
  · intro α e outcomes maxRetries baseDelayMs hfatal h0
    unfold withRetry withRetryGo
    rw [h0]
    cases maxRetries with
    | zero => rfl
    | succ n => simp only [hfatal, if_false, Bool.false_eq_true]
  · intro e s hst h400 h500 hrl hto hnet
    unfold isRetriableError
    unfold isRateLimitErr at hrl
    unfold isTimeoutErr at hto
    unfold isNetworkErr at hnet
    rcases e with ⟨msg, st⟩
    dsimp only at hst ⊢
    subst hst
    rw [Bool.or_eq_false_iff, Bool.or_eq_false_iff] at hrl
    rw [Bool.or_eq_false_iff, Bool.or_eq_false_iff, Bool.or_eq_false_iff] at hto
    rw [Bool.or_eq_false_iff, Bool.or_eq_false_iff, Bool.or_eq_false_iff] at hnet
    have h5 : (!(s == 0) && decide (500 ≤ s) && decide (s < 600)) = false := by
      have : decide (500 ≤ s) = false := by
        rw [decide_eq_false_iff_not]; omega
      rw [this]
      simp
    simp only [hrl.1.1, hrl.1.2, hrl.2, hto.1.1.1, hto.1.1.2, hto.1.2, hto.2,
      hnet.1.1.1, hnet.1.1.2, hnet.1.2, hnet.2, h5, Bool.or_false, Bool.false_or]
    simp
  · intro α outcomes maxRetries baseDelayMs h
    have := withRetryGo_all_fail outcomes baseDelayMs maxRetries 0
      (fun k hk1 hk2 => h k (by omega))
    simpa [withRetry, List.range_eq_range'] using this

/-- C5 witness: a 404 with a non-matching message is fatal and propagates
with no retry; a 500 makes every attempt retry with doubling delays. -/
theorem C5_withRetry_spec_witness :
    ((isRetriableError { message := "Not Found", status := some 404 }).1 = false ∧
      withRetry (α := Unit) (fun _ => .error { message := "Not Found", status := some 404 }) 5 3000 =
        (.error { message := "Not Found", status := some 404 }, [])) ∧
    (∃ e, (fun _ : ℕ => Except.error (α := Unit) { message := "boom", status := some 500 }) 2 = .error e ∧
      withRetry (α := Unit) (fun _ => .error { message := "boom", status := some 500 }) 2 3 =
        (.error e, (List.range 2).map fun k => 3 * 2 ^ k)) := by
  have h := C5_withRetry_spec
  refine ⟨⟨?_, ?_⟩, ?_⟩
  · have h4 := h.2.2.1 { message := "Not Found", status := some 404 } 404 rfl
      (by omega) (by omega) (by decide) (by decide) (by decide)
    exact h4
  · exact h.2.1 Unit { message := "Not Found", status := some 404 } _ 5 3000
      (h.2.2.1 { message := "Not Found", status := some 404 } 404 rfl
        (by omega) (by omega) (by decide) (by decide) (by decide)) rfl
  · exact h.2.2.2 Unit (fun _ => .error { message := "boom", status := some 500 }) 2 3
      (fun k _ => ⟨{ message := "boom", status := some 500 }, rfl, by decide⟩)

/-- Model of one GraphQL result page for the issue collector: the returned
nodes and the `pageInfo.hasNextPage` flag. -/
structure IssuePage where
  nodes : List GitHubIssue
  hasNextPage : Bool
deriving Repr, DecidableEq

/-- Model of `fetchIssuesByState` from `src/github/issues.ts`, with the
remote responses supplied as the list of pages the loop would receive in
order.  With `stopAtCutoff` set (closed issues), an item updated before the
cutoff terminates collection immediately: earlier items of its page are
kept, the stale item and everything after it are dropped.  Without it (open
issues), pages are consumed while `hasNextPage` holds.  (The in-place
comment top-up for issues with more than 100 comments does not affect which
issues are collected and is omitted here.) -/
def fetchIssuesByState (stopAtCutoff : Bool) (cutoff : ℤ) :
    List IssuePage → List GitHubIssue
  | [] => []
  | page :: rest =>
    if stopAtCutoff && page.nodes.any (fun i => decide (i.updatedAt < cutoff)) then
      page.nodes.takeWhile (fun i => !(decide (i.updatedAt < cutoff)))
    else
      page.nodes ++
        (if page.hasNextPage then fetchIssuesByState stopAtCutoff cutoff rest else [])

/-- Helper: the full item stream of a page sequence — pages concatenated as
long as `hasNextPage` links them, ignoring any cutoff. -/
def pageStream : List IssuePage → List GitHubIssue
  | [] => []
  | page :: rest => page.nodes ++ (if page.hasNextPage then pageStream rest else [])

theorem takeWhile_append_of_any_not {α : Type} {p : α → Bool} :
    ∀ {l1 : List α} (l2 : List α), l1.any (fun a => !(p a)) = true →
      (l1 ++ l2).takeWhile p = l1.takeWhile p := by
  intro l1
  induction l1 with
  | nil => intro l2 h; simp at h
  | cons a t ih =>
    intro l2 h
    by_cases hp : p a = true
    · simp only [List.any_cons, hp, Bool.not_true, Bool.false_or] at h
      simp only [List.cons_append, List.takeWhile_cons, hp, if_true]
      rw [ih l2 h]
    · have hp' : p a = false := by
        rw [Bool.not_eq_true] at hp; exact hp
      simp only [List.cons_append, List.takeWhile_cons, hp', Bool.false_eq_true, if_false]

theorem takeWhile_append_of_all {α : Type} {p : α → Bool} :
    ∀ {l1 : List α} (l2 : List α), l1.all p = true →
      (l1 ++ l2).takeWhile p = l1 ++ l2.takeWhile p := by
  intro l1
  induction l1 with
  | nil => intro l2 _; simp
  | cons a t ih =>
    intro l2 h
    simp only [List.all_cons, Bool.and_eq_true] at h
    simp only [List.cons_append, List.takeWhile_cons, h.1, if_true]
    rw [ih l2 h.2]

/-- C8: with the cutoff active (closed/merged items) the collector returns
exactly the items of the `hasNextPage`-linked stream that precede the first
item updated before the 90-day cutoff — the stale item, the rest of its
page, and all later pages are excluded; without the cutoff (open items) it
returns the whole stream, i.e. collects until no further pages remain. -/
theorem C8_pagination_cutoff :
    (∀ (cutoff : ℤ) (pages : List IssuePage),
      fetchIssuesByState true cutoff pages =
        (pageStream pages).takeWhile (fun i => !(decide (i.updatedAt < cutoff)))) ∧
    (∀ (cutoff : ℤ) (pages : List IssuePage),
      fetchIssuesByState false cutoff pages = pageStream pages) := by
  constructor
  · intro cutoff pages
    induction pages with
    | nil => rfl
    | cons page rest ih =>
      unfold fetchIssuesByState pageStream
      by_cases h : page.nodes.any (fun i => decide (i.updatedAt < cutoff)) = true
      · simp only [h, Bool.true_and, if_true]
        rw [takeWhile_append_of_any_not _ (by simpa using h)]
      · have h' : page.nodes.any (fun i => decide (i.updatedAt < cutoff)) = false := by
          rw [Bool.not_eq_true] at h; exact h
        simp only [h', Bool.true_and, Bool.false_eq_true, if_false]
        have hall : page.nodes.all (fun i => !(decide (i.updatedAt < cutoff))) = true := by
          rw [List.all_eq_true]
          intro i hi
          rw [List.any_eq_false] at h'
          simpa using h' i hi
        rw [takeWhile_append_of_all _ hall]
        congr 1
        by_cases hn : page.hasNextPage = true
        · simp only [hn, if_true, ih]
        · have hn' : page.hasNextPage = false := by rw [Bool.not_eq_true] at hn; exact hn
          simp only [hn', Bool.false_eq_true, if_false, List.takeWhile_nil]
  · intro cutoff pages
    induction pages with
    | nil => rfl
    | cons page rest ih =>
      unfold fetchIssuesByState pageStream
      simp only [Bool.false_and, Bool.false_eq_true, if_false]
      congr 1
      by_cases hn : page.hasNextPage = true
      · simp only [hn, if_true, ih]
      · have hn' : page.hasNextPage = false := by rw [Bool.not_eq_true] at hn; exact hn
        simp only [hn', Bool.false_eq_true, if_false]

/-- Model of JavaScript `new Set(list)` iteration order: keep the first
occurrence of each element. `seen` holds the elements already emitted. -/
def dedupFirst (seen : List String) : List String → List String
  | [] => []
  | a :: t => if seen.contains a then dedupFirst seen t
              else a :: dedupFirst (a :: seen) t

/-- Model of `updateContributors` from `src/data/writers.ts`
(`[...new Set([...existing, ...allContributors])].sort()` persisted back):
the function maps the existing on-disk list and the newly observed list to
the persisted list. -/
def updateContributors (existing allContributors : List String) : List String :=
  (dedupFirst [] (existing ++ allContributors)).mergeSort (fun a b => decide (a ≤ b))

theorem mem_dedupFirst (x : String) :
    ∀ (l seen : List String), x ∈ dedupFirst seen l ↔ (x ∈ l ∧ x ∉ seen) := by
  intro l
  induction l with
  | nil => intro seen; simp [dedupFirst]
  | cons a t ih =>
    intro seen
    unfold dedupFirst
    by_cases h : seen.contains a
    · rw [if_pos h, ih]
      have ha : a ∈ seen := by simpa using h
      constructor
      · rintro ⟨h1, h2⟩
        exact ⟨List.mem_cons_of_mem _ h1, h2⟩
      · rintro ⟨h1, h2⟩
        rcases List.mem_cons.mp h1 with h1 | h1
        · exact absurd (h1 ▸ ha) h2
        · exact ⟨h1, h2⟩
    · rw [if_neg h]
      have ha : a ∉ seen := by simpa using h
      constructor
      · intro hmem
        rcases List.mem_cons.mp hmem with h1 | h1
        · subst h1
          exact ⟨List.mem_cons_self _ _, ha⟩
        · rw [ih] at h1
          exact ⟨List.mem_cons_of_mem _ h1.1,
            fun hx => h1.2 (List.mem_cons_of_mem _ hx)⟩
      · rintro ⟨h1, h2⟩
        rcases List.mem_cons.mp h1 with h1 | h1
        · subst h1
          exact List.mem_cons_self _ _
        · by_cases hxa : x = a
          · subst hxa
            exact List.mem_cons_self _ _
          · refine List.mem_cons_of_mem _ ?_
            rw [ih]
            refine ⟨h1, fun hx => ?_⟩
            rcases List.mem_cons.mp hx with hc | hc
            · exact hxa hc
            · exact h2 hc

theorem nodup_dedupFirst : ∀ (l seen : List String), (dedupFirst seen l).Nodup := by
  intro l
  induction l with
  | nil => intro seen; simp [dedupFirst]
  | cons a t ih =>
    intro seen
    unfold dedupFirst
    by_cases h : seen.contains a
    · rw [if_pos h]; exact ih seen
    · rw [if_neg h]
      refine List.Nodup.cons ?_ (ih (a :: seen))
      intro hmem
      rw [mem_dedupFirst] at hmem
      exact hmem.2 (List.mem_cons_self a seen)

theorem updateContributors_mem (existing allContributors : List String) (x : String) :
    x ∈ updateContributors existing allContributors ↔
      (x ∈ existing ∨ x ∈ allContributors) := by
  unfold updateContributors
  rw [(List.mergeSort_perm _ _).mem_iff, mem_dedupFirst]
  simp

theorem updateContributors_nodup (existing allContributors : List String) :
    (updateContributors existing allContributors).Nodup := by
  unfold updateContributors
  rw [(List.mergeSort_perm _ _).nodup_iff]
  exact nodup_dedupFirst _ _

theorem updateContributors_sorted (existing allContributors : List String) :
    (updateContributors existing allContributors).Sorted (· ≤ ·) := by
  unfold updateContributors
  have h := @List.sorted_mergeSort _
    (fun a b : String => decide (a ≤ b))
    (fun a b c hab hbc => by
      rw [decide_eq_true_iff] at hab hbc ⊢
      exact le_trans hab hbc)
    (fun a b => by
      rcases le_total a b with h | h
      · simp [h]
      · simp [h])
    (dedupFirst [] (existing ++ allContributors))
  exact h.imp (fun hab => by rwa [decide_eq_true_iff] at hab)

theorem nodup_subset_length_le {l1 l2 : List String} (h1 : l1.Nodup)
    (hsub : ∀ x ∈ l1, x ∈ l2) : l1.length ≤ l2.length := by
  have hc1 : l1.toFinset.card = l1.length := List.toFinset_card_of_nodup h1
  have hsub' : l1.toFinset ⊆ l2.toFinset := by
    intro x hx
    rw [List.mem_toFinset] at hx ⊢
    exact hsub x hx
  calc l1.length = l1.toFinset.card := hc1.symm
    _ ≤ l2.toFinset.card := Finset.card_le_card hsub'
    _ ≤ l2.length := l2.toFinset_card_le

/-- C7: the contributor registry update is append-only — every identity on
disk before the run is still present afterwards, the persisted list is the
deduplicated sorted union of the on-disk and newly observed identities, and
the registry size never decreases across successive runs. -/
theorem C7_updateContributors_append_only :
    (∀ (existing allContributors : List String) (x : String), x ∈ existing →
      x ∈ updateContributors existing allContributors) ∧
    (∀ (existing allContributors : List String) (x : String),
      x ∈ updateContributors existing allContributors ↔
        (x ∈ existing ∨ x ∈ allContributors)) ∧
    (∀ existing allContributors : List String,
      (updateContributors existing allContributors).Nodup ∧
      (updateContributors existing allContributors).Sorted (· ≤ ·)) ∧
    (∀ existing n1 n2 : List String,
      (updateContributors existing n1).length ≤
        (updateContributors (updateContributors existing n1) n2).length) := by
  refine ⟨?_, updateContributors_mem, ?_, ?_⟩
  · intro existing allContributors x hx
    rw [updateContributors_mem]
    exact Or.inl hx
  · intro existing allContributors
    exact ⟨updateContributors_nodup _ _, updateContributors_sorted _ _⟩
  · intro existing n1 n2
    apply nodup_subset_length_le (updateContributors_nodup existing n1)
    intro x hx
    rw [updateContributors_mem]
    exact Or.inl hx

/-- C7 witness: the theorem applied at a concrete registry state. -/
theorem C7_updateContributors_append_only_witness :
    "alice" ∈ updateContributors ["bob", "alice"] ["carol"] :=
  C7_updateContributors_append_only.1 ["bob", "alice"] ["carol"] "alice"
    (by simp)

/-- Model of a changed-file record of a pull request (`GitHubPRFile`). -/
structure GitHubPRFile where
  filename : String
  additions : ℕ
  deletions : ℕ
  changes : ℕ
deriving Repr, DecidableEq

/-- Model of `HotspotRawData`: one merged PR's number and changed files. -/
structure HotspotRawData where
  prNumber : ℕ
  files : List GitHubPRFile
deriving Repr, DecidableEq

/-- Model of `FileHotspot` from `src/types/index.ts`. -/
structure FileHotspot where
  path : String
  pr_count : ℕ
  total_changes : ℕ
deriving Repr, DecidableEq

/-- Model of `DirectoryHotspot` from `src/types/index.ts`. -/
structure DirectoryHotspot where
  path : String
  pr_count : ℕ
  file_count : ℕ
deriving Repr, DecidableEq

/-- Model of `HotspotMetrics` from `src/types/index.ts`. -/
structure HotspotMetrics where
  by_file : List FileHotspot
  by_directory : List DirectoryHotspot
  top_n : ℕ
deriving Repr, DecidableEq

/-- Model of `getDirectory` from `src/metrics/hotspots.ts`. -/
def getDirectory (filePath : String) : String :=
  let parts := filePath.splitOn "/"
  if parts.length ≤ 1 then "/"
  else String.intercalate "/" parts.dropLast ++ "/"

/-- Model of the `fileStats` map of `calculateHotspots`: an insertion-ordered
association list `(filename, prCount, totalChanges)`; `bumpFileStat`
performs `fileStats.get(..) || {0,0}` followed by increment and `set`. -/
def bumpFileStat : List (String × ℕ × ℕ) → String → ℕ → List (String × ℕ × ℕ)
  | [], name, changes => [(name, 1, changes)]
  | (n, c, t) :: rest, name, changes =>
    if n = name then (n, c + 1, t + changes) :: rest
    else (n, c, t) :: bumpFileStat rest name changes

/-- Model of the inner loop of `calculateHotspots` over one PR's file list:
`filesInPR` is the per-PR set of already counted file names, so each file
name is counted once per PR, with the `changes` of its first occurrence. -/
def processPRFiles (stats : List (String × ℕ × ℕ)) (seen : List String) :
    List GitHubPRFile → List (String × ℕ × ℕ)
  | [] => stats
  | file :: rest =>
    if seen.contains file.filename then processPRFiles stats seen rest
    else processPRFiles (bumpFileStat stats file.filename file.changes)
      (file.filename :: seen) rest

/-- Model of the file-aggregation pass of `calculateHotspots`. -/
def fileStatsOf (data : List HotspotRawData) : List (String × ℕ × ℕ) :=
  data.foldl (fun stats prData => processPRFiles stats [] prData.files) []

/-- Model of the `dirStats` map of `calculateHotspots`: per directory the
set of PR numbers and the set of file names, insertion-ordered. -/
def bumpDirStat : List (String × List ℕ × List String) → String → ℕ → String →
    List (String × List ℕ × List String)
  | [], dir, prNum, fname => [(dir, [prNum], [fname])]
  | (d, prs, fs) :: rest, dir, prNum, fname =>
    if d = dir then
      (d, (if prs.contains prNum then prs else prs ++ [prNum]),
          (if fs.contains fname then fs else fs ++ [fname])) :: rest
    else (d, prs, fs) :: bumpDirStat rest dir prNum fname

/-- Model of the directory-aggregation pass of `calculateHotspots`. -/
def dirStatsOf (data : List HotspotRawData) : List (String × List ℕ × List String) :=
  data.foldl (fun stats prData =>
    prData.files.foldl (fun st file =>
      bumpDirStat st (getDirectory file.filename) prData.prNumber file.filename) stats) []

/-- Model of `calculateHotspots` from `src/metrics/hotspots.ts`: aggregate
per file and per directory, sort by descending PR count (JavaScript's
stable sort with comparator `b.pr_count - a.pr_count`), truncate to the top
20 files and top 10 directories. -/
def calculateHotspots (data : List HotspotRawData) : HotspotMetrics :=
  let by_file :=
    (((fileStatsOf data).map fun e => FileHotspot.mk e.1 e.2.1 e.2.2).mergeSort
      (fun a b => decide (b.pr_count ≤ a.pr_count))).take 20
  let by_directory :=
    (((dirStatsOf data).map fun e => DirectoryHotspot.mk e.1 e.2.1.length e.2.2.length).mergeSort
      (fun a b => decide (b.pr_count ≤ a.pr_count))).take 10
  { by_file := by_file, by_directory := by_directory, top_n := 20 }

/-- Helper: the `changes` value of the first occurrence of `path` in a PR's
file list (the occurrence `calculateHotspots` counts), 0 when absent. -/
def firstChanges (files : List GitHubPRFile) (path : String) : ℕ :=
  match files.find? (fun f => f.filename == path) with
  | some f => f.changes
  | none => 0

/-- Helper: whether a PR's file list contains `path`. -/
def touches (pr : HotspotRawData) (path : String) : Bool :=
  pr.files.any (fun f => f.filename == path)

/-- Helper: association-list lookup in the file-stats accumulator. -/
def lookupStat (stats : List (String × ℕ × ℕ)) (path : String) : Option (ℕ × ℕ) :=
  match stats.find? (fun e => e.1 == path) with
  | some e => some e.2
  | none => none

/-- Helper: the effect of one counted occurrence on a stats cell. -/
def bumpOpt (o : Option (ℕ × ℕ)) (ch : ℕ) : Option (ℕ × ℕ) :=
  match o with
  | none => some (1, ch)
  | some (c, t) => some (c + 1, t + ch)

theorem lookupStat_nil (path : String) : lookupStat [] path = none := rfl

theorem lookupStat_cons (n : String) (c t : ℕ) (rest : List (String × ℕ × ℕ))
    (path : String) :
    lookupStat ((n, c, t) :: rest) path =
      if n = path then some (c, t) else lookupStat rest path := by
  unfold lookupStat
  by_cases h : n = path
  · subst h
    simp [List.find?]
  · have hb : (n == path) = false := by
      rw [beq_eq_false_iff_ne]; exact h
    simp [List.find?, hb, h]

theorem lookupStat_bumpFileStat :
    ∀ (stats : List (String × ℕ × ℕ)) (name : String) (ch : ℕ) (path : String),
      lookupStat (bumpFileStat stats name ch) path =
        if path = name then bumpOpt (lookupStat stats name) ch
        else lookupStat stats path := by
  intro stats
  induction stats with
  | nil =>
    intro name ch path
    show lookupStat [(name, 1, ch)] path = _
    rw [lookupStat_cons]
    by_cases h : path = name
    · rw [if_pos h, if_pos h.symm, lookupStat_nil]
      rfl
    · rw [if_neg h, if_neg (fun hc => h hc.symm)]
  | cons hd rest ih =>
    intro name ch path
    obtain ⟨n, c, t⟩ := hd
    unfold bumpFileStat
    by_cases hn : n = name
    · subst hn
      rw [if_pos rfl, lookupStat_cons, lookupStat_cons, lookupStat_cons]
      by_cases hp : path = n
      · rw [if_pos hp.symm, if_pos hp, if_pos rfl]
        rfl
      · rw [if_neg (fun hc => hp hc.symm), if_neg hp,
          if_neg (fun hc => hp hc.symm)]
    · rw [if_neg hn, lookupStat_cons, lookupStat_cons, lookupStat_cons]
      by_cases hnp : n = path
      · have hpn : ¬ path = name := by
          intro hc
          exact hn (hnp.symm ▸ hc)
        rw [if_pos hnp, if_neg hn, if_neg hpn, if_pos hnp]
      · rw [if_neg hnp, if_neg hn, ih]
        by_cases hp : path = name
        · rw [if_pos hp, if_pos hp]
        · rw [if_neg hp, if_neg hp, if_neg hnp]

theorem lookupStat_processPRFiles :
    ∀ (files : List GitHubPRFile) (stats : List (String × ℕ × ℕ))
      (seen : List String) (path : String),
      lookupStat (processPRFiles stats seen files) path =
        if seen.contains path then lookupStat stats path
        else match files.find? (fun f => f.filename == path) with
          | none => lookupStat stats path
          | some f => bumpOpt (lookupStat stats path) f.changes := by
  intro files
  induction files with
  | nil =>
    intro stats seen path
    simp [processPRFiles, List.find?]
  | cons file rest ih =>
    intro stats seen path
    unfold processPRFiles
    by_cases hs : seen.contains file.filename
    · rw [if_pos hs, ih]
      by_cases hp : seen.contains path
      · rw [if_pos hp, if_pos hp]
      · rw [if_neg hp, if_neg hp]
        have hne : (file.filename == path) = false := by
          rw [beq_eq_false_iff_ne]
          intro hc
          rw [hc] at hs
          exact hp hs
        simp only [List.find?, hne]
    · rw [if_neg hs, ih]
      by_cases hfp : path = file.filename
      · have h1 : (file.filename :: seen).contains path = true := by
          simp [List.contains_cons, hfp]
        rw [if_pos h1]
        have h2 : seen.contains path = false := by
          rw [hfp]
          rw [Bool.not_eq_true] at hs
          exact hs
        rw [if_neg (by rw [h2]; exact Bool.false_ne_true)]
        have h3 : (file.filename == path) = true := by
          rw [beq_iff_eq]; exact hfp.symm
        simp only [List.find?, h3]
        rw [lookupStat_bumpFileStat, if_pos hfp, hfp]
      · have h1 : (file.filename :: seen).contains path = seen.contains path := by
          simp only [List.contains_cons]
          have hb : (path == file.filename) = false := by
            rw [beq_eq_false_iff_ne]; exact hfp
          rw [hb, Bool.false_or]
        rw [h1]
        have hne : (file.filename == path) = false := by
          rw [beq_eq_false_iff_ne]
          exact fun hc => hfp hc.symm
        by_cases hp : seen.contains path
        · rw [if_pos hp, if_pos hp]
          rw [lookupStat_bumpFileStat, if_neg hfp]
        · rw [if_neg hp, if_neg hp]
          simp only [List.find?, hne]
          rw [lookupStat_bumpFileStat, if_neg hfp]

theorem touches_iff_find? (pr : HotspotRawData) (path : String) :
    touches pr path = false ↔ pr.files.find? (fun f => f.filename == path) = none := by
  unfold touches
  rw [List.find?_eq_none, List.any_eq_false]

theorem lookupStat_fileStatsOf_aux :
    ∀ (data : List HotspotRawData) (stats : List (String × ℕ × ℕ)) (path : String),
      lookupStat (data.foldl (fun st pr => processPRFiles st [] pr.files) stats) path =
        ((data.filter (fun pr => touches pr path)).map
          (fun pr => firstChanges pr.files path)).foldl bumpOpt (lookupStat stats path) := by
  intro data
  induction data with
  | nil => intro stats path; rfl
  | cons pr rest ih =>
    intro stats path
    rw [List.foldl_cons, ih]
    by_cases ht : touches pr path = true
    · have hfind : ∃ f, pr.files.find? (fun f => f.filename == path) = some f := by
        rcases Option.eq_none_or_eq_some (pr.files.find? (fun f => f.filename == path))
          with h | h
        · rw [← touches_iff_find?] at h
          rw [ht] at h
          exact absurd h (by simp)
        · exact h
      obtain ⟨f, hf⟩ := hfind
      have hl : lookupStat (processPRFiles stats [] pr.files) path =
          bumpOpt (lookupStat stats path) f.changes := by
        rw [lookupStat_processPRFiles]
        simp only [List.contains_nil, Bool.false_eq_true, if_false, hf]
      rw [hl]
      rw [List.filter_cons_of_pos (by simpa using ht), List.map_cons, List.foldl_cons]
      have hfc : firstChanges pr.files path = f.changes := by
        unfold firstChanges
        rw [hf]
      rw [hfc]
    · have ht' : touches pr path = false := by
        rw [Bool.not_eq_true] at ht; exact ht
      have hfind := (touches_iff_find? pr path).mp ht'
      have hl : lookupStat (processPRFiles stats [] pr.files) path =
          lookupStat stats path := by
        rw [lookupStat_processPRFiles]
        simp only [List.contains_nil, Bool.false_eq_true, if_false, hfind]
      rw [hl, List.filter_cons_of_neg (by simp [ht'])]

theorem foldl_bumpOpt_some (l : List ℕ) :
    ∀ c t : ℕ, l.foldl bumpOpt (some (c, t)) = some (c + l.length, t + l.sum) := by
  induction l with
  | nil => intro c t; simp
  | cons a rest ih =>
    intro c t
    rw [List.foldl_cons]
    show List.foldl bumpOpt (some (c + 1, t + a)) rest = _
    rw [ih]
    have h1 : c + 1 + rest.length = c + (a :: rest).length := by
      simp only [List.length_cons]
      omega
    have h2 : t + a + rest.sum = t + (a :: rest).sum := by
      simp only [List.sum_cons]
      omega
    rw [h1, h2]

theorem foldl_bumpOpt_none (l : List ℕ) :
    l.foldl bumpOpt none = if l.length = 0 then none else some (l.length, l.sum) := by
  cases l with
  | nil => rfl
  | cons a rest =>
    rw [List.foldl_cons]
    show List.foldl bumpOpt (some (1, a)) rest = _
    rw [foldl_bumpOpt_some]
    rw [if_neg (by simp)]
    have h1 : 1 + rest.length = (a :: rest).length := by
      simp only [List.length_cons]
      omega
    have h2 : a + rest.sum = (a :: rest).sum := by
      simp only [List.sum_cons]
    rw [h1, h2]

/-- Helper: the final lookup characterization of the file stats. -/
theorem lookupStat_fileStatsOf (data : List HotspotRawData) (path : String) :
    lookupStat (fileStatsOf data) path =
      if (data.filter (fun pr => touches pr path)).length = 0 then none
      else some ((data.filter (fun pr => touches pr path)).length,
        ((data.filter (fun pr => touches pr path)).map
          (fun pr => firstChanges pr.files path)).sum) := by
  unfold fileStatsOf
  rw [lookupStat_fileStatsOf_aux, lookupStat_nil, foldl_bumpOpt_none]
  simp [List.length_map]

theorem keys_bumpFileStat :
    ∀ (stats : List (String × ℕ × ℕ)) (name : String) (ch : ℕ),
      (bumpFileStat stats name ch).map Prod.fst =
        if name ∈ stats.map Prod.fst then stats.map Prod.fst
        else stats.map Prod.fst ++ [name] := by
  intro stats
  induction stats with
  | nil => intro name ch; simp [bumpFileStat]
  | cons hd rest ih =>
    intro name ch
    obtain ⟨n, c, t⟩ := hd
    unfold bumpFileStat
    by_cases hn : n = name
    · subst hn
      rw [if_pos rfl]
      simp [List.mem_cons]
    · rw [if_neg hn]
      simp only [List.map_cons, ih]
      by_cases hm : name ∈ rest.map Prod.fst
      · rw [if_pos hm, if_pos (by simp [List.mem_cons, hm])]
      · rw [if_neg hm, if_neg (by
          simp only [List.mem_cons]
          rintro (h | h)
          · exact hn h.symm
          · exact hm h)]
        simp

theorem keys_nodup_bumpFileStat {stats : List (String × ℕ × ℕ)}
    (h : (stats.map Prod.fst).Nodup) (name : String) (ch : ℕ) :
    ((bumpFileStat stats name ch).map Prod.fst).Nodup := by
  rw [keys_bumpFileStat]
  by_cases hm : name ∈ stats.map Prod.fst
  · rw [if_pos hm]; exact h
  · rw [if_neg hm]
    rw [List.nodup_append]
    exact ⟨h, List.nodup_singleton _, by
      intro a ha hb
      rw [List.mem_singleton] at hb
      exact hm (hb ▸ ha)⟩

theorem keys_nodup_processPRFiles :
    ∀ (files : List GitHubPRFile) (stats : List (String × ℕ × ℕ))
      (seen : List String), (stats.map Prod.fst).Nodup →
      ((processPRFiles stats seen files).map Prod.fst).Nodup := by
  intro files
  induction files with
  | nil => intro stats seen h; exact h
  | cons file rest ih =>
    intro stats seen h
    unfold processPRFiles
    by_cases hs : seen.contains file.filename
    · rw [if_pos hs]; exact ih stats seen h
    · rw [if_neg hs]
      exact ih _ _ (keys_nodup_bumpFileStat h _ _)

theorem keys_nodup_fileStatsOf (data : List HotspotRawData) :
    ((fileStatsOf data).map Prod.fst).Nodup := by
  unfold fileStatsOf
  suffices h : ∀ (d : List HotspotRawData) (stats : List (String × ℕ × ℕ)),
      (stats.map Prod.fst).Nodup →
      ((d.foldl (fun st pr => processPRFiles st [] pr.files) stats).map Prod.fst).Nodup by
    exact h data [] (by simp)
  intro d
  induction d with
  | nil => intro stats h; exact h
  | cons pr rest ih =>
    intro stats h
    rw [List.foldl_cons]
    exact ih _ (keys_nodup_processPRFiles pr.files stats [] h)

theorem lookupStat_of_mem :
    ∀ {stats : List (String × ℕ × ℕ)}, ((stats.map Prod.fst).Nodup) →
      ∀ {path : String} {c t : ℕ}, (path, c, t) ∈ stats →
      lookupStat stats path = some (c, t) := by
  intro stats
  induction stats with
  | nil => intro _ path c t hm; simp at hm
  | cons hd rest ih =>
    intro hnd path c t hm
    obtain ⟨n, c', t'⟩ := hd
    rw [lookupStat_cons]
    rw [List.map_cons, List.nodup_cons] at hnd
    rcases List.mem_cons.mp hm with hm | hm
    · injection hm with ha hb
      injection hb with hb hc
      rw [if_pos ha.symm, ← hb, ← hc]
    · by_cases hn : n = path
      · exfalso
        apply hnd.1
        subst hn
        exact List.mem_map.mpr ⟨(n, c, t), hm, rfl⟩
      · rw [if_neg hn]
        exact ih hnd.2 hm

theorem pairwise_mergeSort_key {α : Type} (key : α → ℕ) (l : List α) :
    (l.mergeSort (fun a b => decide (key b ≤ key a))).Pairwise
      (fun a b => key b ≤ key a) := by
  have h := @List.sorted_mergeSort _
    (fun a b => decide (key b ≤ key a))
    (fun a b c hab hbc => by
      rw [decide_eq_true_iff] at hab hbc ⊢
      omega)
    (fun a b => by
      rcases le_total (key a) (key b) with h | h <;> simp [h]) l
  exact h.imp (fun hab => by rwa [decide_eq_true_iff] at hab)

/-- C9: every file hotspot in the output reports as `pr_count` the number
of PR entries whose file list contains that path — with pairwise distinct
PR numbers this is the number of distinct pull requests touching the file,
a file repeated inside one PR's list counting once, with the line changes
of its first occurrence added once — and the output holds at most the top
20 files and 10 directories in non-increasing PR-count order. -/
theorem C9_hotspots :
    (∀ (data : List HotspotRawData) (fh : FileHotspot),
      (data.map (fun pr => pr.prNumber)).Nodup →
      fh ∈ (calculateHotspots data).by_file →
      (fh.pr_count = (data.filter (fun pr => touches pr fh.path)).length ∧
       fh.total_changes = ((data.filter (fun pr => touches pr fh.path)).map
          (fun pr => firstChanges pr.files fh.path)).sum ∧
       ((data.filter (fun pr => touches pr fh.path)).map
          (fun pr => pr.prNumber)).Nodup)) ∧
    (∀ data : List HotspotRawData,
      (calculateHotspots data).by_file.length ≤ 20 ∧
      (calculateHotspots data).by_directory.length ≤ 10) ∧
    (∀ data : List HotspotRawData,
      (calculateHotspots data).by_file.Pairwise
        (fun a b => b.pr_count ≤ a.pr_count) ∧
      (calculateHotspots data).by_directory.Pairwise
        (fun a b => b.pr_count ≤ a.pr_count)) := by
  refine ⟨?_, ?_, ?_⟩
  · intro data fh hnodup hmem
    have hmem1 : fh ∈ ((fileStatsOf data).map fun e =>
        FileHotspot.mk e.1 e.2.1 e.2.2).mergeSort
          (fun a b => decide (b.pr_count ≤ a.pr_count)) :=
      List.mem_of_mem_take hmem
    rw [(List.mergeSort_perm _ _).mem_iff] at hmem1
    obtain ⟨e, he, hfe⟩ := List.mem_map.mp hmem1
    obtain ⟨p, c, t⟩ := e
    have hp : p = fh.path := by rw [← hfe]
    have hc : c = fh.pr_count := by rw [← hfe]
    have ht : t = fh.total_changes := by rw [← hfe]
    subst hp hc ht
    have hlook := lookupStat_of_mem (keys_nodup_fileStatsOf data) he
    rw [lookupStat_fileStatsOf] at hlook
    by_cases h0 : (data.filter (fun pr => touches pr fh.path)).length = 0
    · rw [if_pos h0] at hlook
      exact absurd hlook (by simp)
    · rw [if_neg h0] at hlook
      injection hlook with hlook
      have h1 : fh.pr_count = (data.filter (fun pr => touches pr fh.path)).length := by
        have := congrArg Prod.fst hlook
        simpa using this.symm
      have h2 : fh.total_changes = ((data.filter (fun pr => touches pr fh.path)).map
          (fun pr => firstChanges pr.files fh.path)).sum := by
        have := congrArg (fun q => q.2) hlook
        simpa using this.symm
      refine ⟨h1, h2, ?_⟩
      exact hnodup.sublist (List.Sublist.map _ (List.filter_sublist data))
  · intro data
    exact ⟨List.length_take_le _ _, List.length_take_le _ _⟩
  · intro data
    constructor
    · exact List.Pairwise.sublist (List.take_sublist _ _)
        (pairwise_mergeSort_key (fun fh : FileHotspot => fh.pr_count) _)
    · exact List.Pairwise.sublist (List.take_sublist _ _)
        (pairwise_mergeSort_key (fun dh : DirectoryHotspot => dh.pr_count) _)

/-- Concrete hotspot input: PRs 1 and 2 both touch `a.ts`, PR 2 listing it
twice with different change counts. -/
def hotspotExample : List HotspotRawData :=
  [{ prNumber := 1, files := [{ filename := "a.ts", additions := 1, deletions := 1, changes := 5 }] },
   { prNumber := 2, files :=
      [{ filename := "a.ts", additions := 2, deletions := 0, changes := 3 },
       { filename := "a.ts", additions := 9, deletions := 9, changes := 100 }] }]

/-- C9 witness: the theorem applied to `hotspotExample` — the file touched
by PRs 1 and 2 only reports `pr_count = 2`, the duplicate listing inside PR
2 counting once with its first occurrence's changes. -/
theorem C9_hotspots_witness :
    (FileHotspot.mk "a.ts" 2 8).pr_count =
      (hotspotExample.filter (fun pr => touches pr "a.ts")).length ∧
    (hotspotExample.filter (fun pr => touches pr "a.ts")).length = 2 := by
  have hstats : fileStatsOf hotspotExample = [("a.ts", 2, 8)] := rfl
  have hmem : FileHotspot.mk "a.ts" 2 8 ∈ (calculateHotspots hotspotExample).by_file := by
    show FileHotspot.mk "a.ts" 2 8 ∈
      (((fileStatsOf hotspotExample).map fun e =>
        FileHotspot.mk e.1 e.2.1 e.2.2).mergeSort
          (fun a b => decide (b.pr_count ≤ a.pr_count))).take 20
    rw [hstats]
    have hperm := List.mergeSort_perm
      ([("a.ts", 2, 8)].map fun e => FileHotspot.mk e.1 e.2.1 e.2.2)
      (fun a b => decide (b.pr_count ≤ a.pr_count))
    have e1 : (([(("a.ts" : String), (2 : ℕ), (8 : ℕ))]).map fun e =>
        FileHotspot.mk e.1 e.2.1 e.2.2) = [FileHotspot.mk "a.ts" 2 8] := rfl
    rw [e1] at hperm
    rw [e1, List.perm_singleton.mp hperm]
    simp
  have h := C9_hotspots.1 hotspotExample (FileHotspot.mk "a.ts" 2 8) (by decide) hmem
  exact ⟨h.1, by decide⟩

/-- Window constants from `src/metrics/contributors.ts` (milliseconds). -/
def THIRTY_DAYS_MS : ℤ := 30 * 24 * 60 * 60 * 1000

/-- Sixty-day window constant (milliseconds). -/
def SIXTY_DAYS_MS : ℤ := 60 * 24 * 60 * 60 * 1000

/-- One-hundred-twenty-day window constant (milliseconds). -/
def ONE_TWENTY_DAYS_MS : ℤ := 120 * 24 * 60 * 60 * 1000

/-- Model of a pull request restricted to the fields the contributor
calculator reads. -/
structure GitHubPullRequest where
  number : ℕ
  createdAt : ℤ
  updatedAt : ℤ
  mergedAt : Option ℤ
  closedAt : Option ℤ
  author : Option String
deriving Repr, DecidableEq

/-- Model of `IssueData`: open and closed issue lists. -/
structure IssueData where
  open_ : List GitHubIssue
  closed : List GitHubIssue
deriving Repr, DecidableEq

/-- Model of `PullRequestData`: open and closed pull-request lists. -/
structure PullRequestData where
  open_ : List GitHubPullRequest
  closed : List GitHubPullRequest
deriving Repr, DecidableEq

/-- Model of `CommitData` (`src/github/commits.ts`): commit timestamp and
the author login (`commit.author?.user?.login`, `none` when absent). -/
structure CommitData where
  committedDate : ℤ
  author : Option String
deriving Repr, DecidableEq

/-- Model of a JavaScript `Set<string>` insertion: append if absent. -/
def setAdd (s : List String) (a : String) : List String :=
  if s.contains a then s else s ++ [a]

/-- The four contributor sets built by `calculateContributorMetrics`
(`src/metrics/contributors.ts`). -/
structure ContribState where
  current : List String
  active : List String
  prevWindow : List String
  recentHistory : List String
deriving Repr, DecidableEq

/-- Initial (empty) contributor sets. -/
def initialContribState : ContribState := ⟨[], [], [], []⟩

/-- Model of `processContribution` from `src/metrics/contributors.ts`: skip
missing/falsy and bot authors, then file the author into the sets whose
age window (`age = now - activityTime`) matches. -/
def processContribution (now : ℤ) (st : ContribState)
    (ev : Option String × ℤ) : ContribState :=
  match ev.1 with
  | none => st
  | some author =>
    if author = "" ∨ isBot (some author) = true then st
    else
      { current := setAdd st.current author
        active := if now - ev.2 < THIRTY_DAYS_MS then
            setAdd st.active author else st.active
        prevWindow := if THIRTY_DAYS_MS ≤ now - ev.2 ∧ now - ev.2 < SIXTY_DAYS_MS then
            setAdd st.prevWindow author else st.prevWindow
        recentHistory := if THIRTY_DAYS_MS ≤ now - ev.2 ∧ now - ev.2 < ONE_TWENTY_DAYS_MS then
            setAdd st.recentHistory author else st.recentHistory }

/-- Model of the activity traversal of `calculateContributorMetrics`: one
`(author, timestamp)` event per issue, pull request (creation time), and
commit (commit time), in the source's iteration order. -/
def contributionEvents (issues : IssueData) (pulls : PullRequestData)
    (commits : List CommitData) : List (Option String × ℤ) :=
  ((issues.open_ ++ issues.closed).map fun i => (i.author, i.createdAt)) ++
    ((pulls.open_ ++ pulls.closed).map fun p => (p.author, p.createdAt)) ++
    (commits.map fun c => (c.author, c.committedDate))

/-- The contributor sets after processing all activity. -/
def contributorState (issues : IssueData) (pulls : PullRequestData)
    (commits : List CommitData) (now : ℤ) : ContribState :=
  (contributionEvents issues pulls commits).foldl (processContribution now)
    initialContribState

/-- Model of the first-time-contributor loop of
`calculateContributorMetrics`: active contributors with no activity
recorded in the 30–120-days-ago window. -/
def newContributorsOf (active recentHistory : List String) : List String :=
  active.filter (fun a => !(recentHistory.contains a))

/-- Model of the reported `first_time_30d` metric: the size of the
first-time contributor set. -/
def firstTime30dCount (issues : IssueData) (pulls : PullRequestData)
    (commits : List CommitData) (now : ℤ) : ℕ :=
  (newContributorsOf (contributorState issues pulls commits now).active
    (contributorState issues pulls commits now).recentHistory).length

theorem mem_setAdd (s : List String) (a b : String) :
    a ∈ setAdd s b ↔ (a ∈ s ∨ a = b) := by
  unfold setAdd
  by_cases h : s.contains b
  · rw [if_pos h]
    have hb : b ∈ s := by simpa using h
    constructor
    · exact Or.inl
    · rintro (h1 | h1)
      · exact h1
      · exact h1 ▸ hb
  · rw [if_neg h]
    simp

theorem guard_false_isBot {author : String}
    (h : ¬(author = "" ∨ isBot (some author) = true)) :
    isBot (some author) = false := by
  push_neg at h
  cases hb : isBot (some author) with
  | false => rfl
  | true => exact absurd hb h.2

theorem processContribution_none (now : ℤ) (st : ContribState)
    {ev : Option String × ℤ} (h : ev.1 = none) :
    processContribution now st ev = st := by
  unfold processContribution
  rw [h]

theorem processContribution_guard (now : ℤ) (st : ContribState)
    {ev : Option String × ℤ} {author : String} (h : ev.1 = some author)
    (hg : author = "" ∨ isBot (some author) = true) :
    processContribution now st ev = st := by
  unfold processContribution
  rw [h]
  dsimp only
  rw [if_pos hg]

theorem processContribution_ok (now : ℤ) (st : ContribState)
    {ev : Option String × ℤ} {author : String} (h : ev.1 = some author)
    (hg : ¬(author = "" ∨ isBot (some author) = true)) :
    processContribution now st ev =
      { current := setAdd st.current author
        active := if now - ev.2 < THIRTY_DAYS_MS then
            setAdd st.active author else st.active
        prevWindow := if THIRTY_DAYS_MS ≤ now - ev.2 ∧ now - ev.2 < SIXTY_DAYS_MS then
            setAdd st.prevWindow author else st.prevWindow
        recentHistory := if THIRTY_DAYS_MS ≤ now - ev.2 ∧ now - ev.2 < ONE_TWENTY_DAYS_MS then
            setAdd st.recentHistory author else st.recentHistory } := by
  unfold processContribution
  rw [h]
  dsimp only
  rw [if_neg hg]

theorem mem_active_foldl (now : ℤ) :
    ∀ (evs : List (Option String × ℤ)) (st : ContribState) (a : String),
      a ∈ (evs.foldl (processContribution now) st).active ↔
        (a ∈ st.active ∨ ∃ ev ∈ evs, ev.1 = some a ∧ isBot (some a) = false ∧
          now - ev.2 < THIRTY_DAYS_MS) := by
  intro evs
  induction evs with
  | nil => intro st a; simp
  | cons ev rest ih =>
    intro st a
    rw [List.foldl_cons, ih]
    have step : a ∈ (processContribution now st ev).active ↔
        (a ∈ st.active ∨ (ev.1 = some a ∧ isBot (some a) = false ∧
          now - ev.2 < THIRTY_DAYS_MS)) := by
      rcases hev : ev.1 with _ | author
      · rw [processContribution_none now st hev]
        simp [hev]
      · by_cases hg : author = "" ∨ isBot (some author) = true
        · rw [processContribution_guard now st hev hg]
          constructor
          · exact Or.inl
          · rintro (h | ⟨h1, h2, _⟩)
            · exact h
            · exfalso
              injection h1 with h1
              subst h1
              rcases hg with hg | hg
              · subst hg
                simp [isBot] at h2
              · rw [h2] at hg
                exact absurd hg (by simp)
        · rw [processContribution_ok now st hev hg]
          dsimp only
          by_cases hage : now - ev.2 < THIRTY_DAYS_MS
          · rw [if_pos hage, mem_setAdd]
            constructor
            · rintro (h | h)
              · exact Or.inl h
              · subst h
                exact Or.inr ⟨rfl, guard_false_isBot hg, hage⟩
            · rintro (h | ⟨h1, _, _⟩)
              · exact Or.inl h
              · injection h1 with h1
                exact Or.inr h1.symm
          · rw [if_neg hage]
            constructor
            · exact Or.inl
            · rintro (h | ⟨_, _, h3⟩)
              · exact h
              · exact absurd h3 hage
    rw [step]
    constructor
    · rintro ((h | h) | h)
      · exact Or.inl h
      · exact Or.inr ⟨ev, List.mem_cons_self _ _, h⟩
      · obtain ⟨ev', hev', hrest⟩ := h
        exact Or.inr ⟨ev', List.mem_cons_of_mem _ hev', hrest⟩
    · rintro (h | ⟨ev', hev', hrest⟩)
      · exact Or.inl (Or.inl h)
      · rcases List.mem_cons.mp hev' with hh | hh
        · subst hh
          exact Or.inl (Or.inr hrest)
        · exact Or.inr ⟨ev', hh, hrest⟩

theorem mem_recentHistory_foldl (now : ℤ) :
    ∀ (evs : List (Option String × ℤ)) (st : ContribState) (a : String),
      a ∈ (evs.foldl (processContribution now) st).recentHistory ↔
        (a ∈ st.recentHistory ∨ ∃ ev ∈ evs, ev.1 = some a ∧ isBot (some a) = false ∧
          THIRTY_DAYS_MS ≤ now - ev.2 ∧ now - ev.2 < ONE_TWENTY_DAYS_MS) := by
  intro evs
  induction evs with
  | nil => intro st a; simp
  | cons ev rest ih =>
    intro st a
    rw [List.foldl_cons, ih]
    have step : a ∈ (processContribution now st ev).recentHistory ↔
        (a ∈ st.recentHistory ∨ (ev.1 = some a ∧ isBot (some a) = false ∧
          THIRTY_DAYS_MS ≤ now - ev.2 ∧ now - ev.2 < ONE_TWENTY_DAYS_MS)) := by
      rcases hev : ev.1 with _ | author
      · rw [processContribution_none now st hev]
        simp [hev]
      · by_cases hg : author = "" ∨ isBot (some author) = true
        · rw [processContribution_guard now st hev hg]
          constructor
          · exact Or.inl
          · rintro (h | ⟨h1, h2, _⟩)
            · exact h
            · exfalso
              injection h1 with h1
              subst h1
              rcases hg with hg | hg
              · subst hg
                simp [isBot] at h2
              · rw [h2] at hg
                exact absurd hg (by simp)
        · rw [processContribution_ok now st hev hg]
          dsimp only
          by_cases hage : THIRTY_DAYS_MS ≤ now - ev.2 ∧ now - ev.2 < ONE_TWENTY_DAYS_MS
          · rw [if_pos hage, mem_setAdd]
            constructor
            · rintro (h | h)
              · exact Or.inl h
              · subst h
                exact Or.inr ⟨rfl, guard_false_isBot hg, hage.1, hage.2⟩
            · rintro (h | ⟨h1, _, _⟩)
              · exact Or.inl h
              · injection h1 with h1
                exact Or.inr h1.symm
          · rw [if_neg hage]
            constructor
            · exact Or.inl
            · rintro (h | ⟨_, _, h3, h4⟩)
              · exact h
              · exact absurd ⟨h3, h4⟩ hage
    rw [step]
    constructor
    · rintro ((h | h) | h)
      · exact Or.inl h
      · exact Or.inr ⟨ev, List.mem_cons_self _ _, h⟩
      · obtain ⟨ev', hev', hrest⟩ := h
        exact Or.inr ⟨ev', List.mem_cons_of_mem _ hev', hrest⟩
    · rintro (h | ⟨ev', hev', hrest⟩)
      · exact Or.inl (Or.inl h)
      · rcases List.mem_cons.mp hev' with hh | hh
        · subst hh
          exact Or.inl (Or.inr hrest)
        · exact Or.inr ⟨ev', hh, hrest⟩

/-- C6: an identity with qualifying non-bot activity in the current 30-day
window and none in the 30–120-days-ago window is in the first-time set
(whose size is the reported `first_time_30d`); one with qualifying activity
in both windows is not. -/
theorem C6_first_time_detection :
    ∀ (issues : IssueData) (pulls : PullRequestData) (commits : List CommitData)
      (now : ℤ) (a : String),
      ((∃ ev ∈ contributionEvents issues pulls commits,
          ev.1 = some a ∧ isBot (some a) = false ∧
          now - ev.2 < THIRTY_DAYS_MS) →
        (∀ ev ∈ contributionEvents issues pulls commits, ev.1 = some a →
          ¬(THIRTY_DAYS_MS ≤ now - ev.2 ∧ now - ev.2 < ONE_TWENTY_DAYS_MS)) →
        a ∈ newContributorsOf (contributorState issues pulls commits now).active
          (contributorState issues pulls commits now).recentHistory) ∧
      ((∃ ev ∈ contributionEvents issues pulls commits,
          ev.1 = some a ∧ isBot (some a) = false ∧
          now - ev.2 < THIRTY_DAYS_MS) →
        (∃ ev ∈ contributionEvents issues pulls commits,
          ev.1 = some a ∧ isBot (some a) = false ∧
          THIRTY_DAYS_MS ≤ now - ev.2 ∧ now - ev.2 < ONE_TWENTY_DAYS_MS) →
        a ∉ newContributorsOf (contributorState issues pulls commits now).active
          (contributorState issues pulls commits now).recentHistory) := by
  intro issues pulls commits now a
  constructor
  · intro hcur hhist
    have hact : a ∈ (contributorState issues pulls commits now).active := by
      unfold contributorState
      rw [mem_active_foldl]
      exact Or.inr hcur
    have hnh : a ∉ (contributorState issues pulls commits now).recentHistory := by
      unfold contributorState
      rw [mem_recentHistory_foldl]
      rintro (h | ⟨ev, hev, h1, _, h3, h4⟩)
      · simp [initialContribState] at h
      · exact hhist ev hev h1 ⟨h3, h4⟩
    unfold newContributorsOf
    rw [List.mem_filter]
    refine ⟨hact, ?_⟩
    simp only [Bool.not_eq_true']
    rw [← Bool.not_eq_true]
    intro hc
    exact hnh (by simpa using hc)
  · intro _ hhist
    have hh : a ∈ (contributorState issues pulls commits now).recentHistory := by
      unfold contributorState
      rw [mem_recentHistory_foldl]
      obtain ⟨ev, hev, h1, h2, h3, h4⟩ := hhist
      exact Or.inr ⟨ev, hev, h1, h2, h3, h4⟩
    unfold newContributorsOf
    rw [List.mem_filter]
    rintro ⟨_, hf⟩
    simp only [Bool.not_eq_true'] at hf
    have : (contributorState issues pulls commits now).recentHistory.contains a = true := by
      simpa using hh
    rw [this] at hf
    exact absurd hf (by simp)

/-- Concrete reference time for the C6 witness (day 1000, in ms). -/
def c6Now : ℤ := 1000 * 86400000

/-- Concrete issue input for the C6 witness: alice active yesterday only;
bob active yesterday and 40 days ago. -/
def c6Issues : IssueData :=
  { open_ :=
      [{ number := 1, title := "a", createdAt := c6Now - 86400000,
         updatedAt := c6Now - 86400000, closedAt := none,
         author := some "alice", labels := [], comments := [],
         commentsTotalCount := 0, timelineItems := [] },
       { number := 2, title := "b", createdAt := c6Now - 86400000,
         updatedAt := c6Now - 86400000, closedAt := none,
         author := some "bob", labels := [], comments := [],
         commentsTotalCount := 0, timelineItems := [] }],
    closed :=
      [{ number := 3, title := "c", createdAt := c6Now - 40 * 86400000,
         updatedAt := c6Now - 40 * 86400000, closedAt := some (c6Now - 39 * 86400000),
         author := some "bob", labels := [], comments := [],
         commentsTotalCount := 0, timelineItems := [] }] }

/-- C6 witness: the theorem applied to the concrete inputs — alice lands in
the first-time set, bob does not. -/
theorem C6_first_time_detection_witness :
    "alice" ∈ newContributorsOf
      (contributorState c6Issues ⟨[], []⟩ [] c6Now).active
      (contributorState c6Issues ⟨[], []⟩ [] c6Now).recentHistory ∧
    "bob" ∉ newContributorsOf
      (contributorState c6Issues ⟨[], []⟩ [] c6Now).active
      (contributorState c6Issues ⟨[], []⟩ [] c6Now).recentHistory := by
  constructor
  · exact (C6_first_time_detection c6Issues ⟨[], []⟩ [] c6Now "alice").1
      (by decide) (by decide)
  · exact (C6_first_time_detection c6Issues ⟨[], []⟩ [] c6Now "bob").2
      (by decide) (by decide)

/-- The per-repository data files `aggregateRepository` can touch; `none`
means the file does not exist.  The metrics and snapshot payload types are
abstracted since only which files change matters here. -/
structure RepoFS (M S : Type) where
  metricsFile : Option M
  contributorsFile : Option (List String)
  snapshotFile : Option S
  previousPeriodFile : Option (List String)
deriving DecidableEq

/-- Model of `loadContributors` from `src/data/writers.ts`: the on-disk
registry, empty when the file is absent. -/
def loadContributors {M S : Type} (fs : RepoFS M S) : List String :=
  fs.contributorsFile.getD []

/-- Modelled from the spec: `loadPreviousPeriodContributors` (declared in
`src/data/writers.ts`, whose current revision is not among the provided
sources; §4.6 of the spec) reads the persisted prior-period active set,
empty when absent. -/
def loadPreviousPeriodContributors {M S : Type} (fs : RepoFS M S) : List String :=
  fs.previousPeriodFile.getD []

/-- Modelled from the spec: `savePreviousPeriodContributors` (declared in
`src/data/writers.ts`, whose current revision is not among the provided
sources) persists the given list as the per-repository prior-period active
set — §4.6: "the 'prior-period active set' persisted for next run's
retention calculation is exactly this run's 30-day-active set". -/
def savePreviousPeriodContributors {M S : Type} (contributors : List String)
    (fs : RepoFS M S) : RepoFS M S :=
  { fs with previousPeriodFile := some contributors }

/-- Model of the `allContributors` merge of `calculateContributorMetrics`
(`src/metrics/contributors.ts` lines 135–144 and 168): bot-filtered
existing registry entries plus all currently observed contributors,
deduplicated and sorted. -/
def allContributorsOf (existing current : List String) : List String :=
  (dedupFirst [] (existing.filter (fun c => !(isBot (some c))) ++ current)).mergeSort
    (fun a b => decide (a ≤ b))

/-- Model of the file effects of `calculateContributorMetrics`
(`src/metrics/contributors.ts`): read the registry and prior-period files,
compute the contributor sets, and unconditionally persist this run's active
set as the new prior-period file (line 156).  Returns the `allContributors`
list and the active set together with the new file state. -/
def calculateContributorMetricsFS {M S : Type} (issues : IssueData)
    (pulls : PullRequestData) (commits : List CommitData) (now : ℤ)
    (fs : RepoFS M S) : (List String × List String) × RepoFS M S :=
  let st := contributorState issues pulls commits now
  let existing := loadContributors fs
  let allContribs := allContributorsOf existing st.current
  ((allContribs, st.active), savePreviousPeriodContributors st.active fs)

/-- Model of the file-writing behaviour of `aggregateRepository`
(`src/aggregator.ts` lines 109–196): fetching and the pure metric
calculators write nothing and are abstracted (`metricsContent` and
`snapshotContent` stand for the computed `metrics.json` and dated snapshot
payloads); `calculateContributorMetrics` runs before the dry-run branch and
carries its own prior-period write; the dry-run branch skips `writeMetrics`,
`updateContributors` and `writeSnapshot`. -/
def aggregateRepositoryFS {M S : Type} (dryRun : Bool) (issues : IssueData)
    (pulls : PullRequestData) (commits : List CommitData) (now : ℤ)
    (metricsContent : M) (snapshotContent : S) (fs : RepoFS M S) : RepoFS M S :=
  let r := calculateContributorMetricsFS issues pulls commits now fs
  let fs1 := r.2
  if dryRun then fs1
  else
    { fs1 with
      metricsFile := some metricsContent
      contributorsFile := some (updateContributors (fs1.contributorsFile.getD []) r.1.1)
      snapshotFile := some snapshotContent }

/-- C2 (code bug): with the dry-run flag set, aggregating a repository
still overwrites (or creates) the prior-period contributor file with this
run's active set, so the pre-run file state is not preserved — here a run
over the concrete inputs creates the file where none existed. -/
theorem C2_dry_run_still_writes :
    (∀ (M S : Type) (issues : IssueData) (pulls : PullRequestData)
        (commits : List CommitData) (now : ℤ) (m : M) (s : S) (fs : RepoFS M S),
      (aggregateRepositoryFS true issues pulls commits now m s fs).previousPeriodFile =
        some (contributorState issues pulls commits now).active) ∧
    @aggregateRepositoryFS Unit Unit true c6Issues ⟨[], []⟩ [] c6Now
        () () ⟨none, none, none, none⟩ ≠ ⟨none, none, none, none⟩ := by
  constructor
  · intro M S issues pulls commits now m s fs
    rfl
  · intro h
    have h2 := congrArg RepoFS.previousPeriodFile h
    simp only [aggregateRepositoryFS, calculateContributorMetricsFS,
      savePreviousPeriodContributors, if_true] at h2
    exact absurd h2 (by simp)

/-- C2 witness: the general part of the theorem applied at the concrete
input, exhibiting the written prior-period content. -/
theorem C2_dry_run_still_writes_witness :
    (@aggregateRepositoryFS Unit Unit true c6Issues ⟨[], []⟩ []
        c6Now () () ⟨none, none, none, none⟩).previousPeriodFile =
      some ["alice", "bob"] := by
  rw [C2_dry_run_still_writes.1 Unit Unit c6Issues ⟨[], []⟩ [] c6Now () ()
    ⟨none, none, none, none⟩]
  decide

/-- Response-time block of a daily snapshot. -/
structure ResponseTimeQ where
  avg_hours : ℚ
  median_hours : ℚ
  p90_hours : ℚ
  p95_hours : ℚ
deriving Repr, DecidableEq

/-- Merge-time block of a daily snapshot. -/
structure MergeTimeQ where
  avg_hours : ℚ
  median_hours : ℚ
deriving Repr, DecidableEq

/-- PR size buckets of a daily snapshot. -/
structure BySizeQ where
  small : ℚ
  medium : ℚ
  large : ℚ
deriving Repr, DecidableEq

/-- Issue block of a daily snapshot (`DailySnapshot.issues`). -/
structure SnapIssues where
  open_ : ℚ
  closed_7d : ℚ
  closed_30d : ℚ
  closed_90d : ℚ
  opened_7d : ℚ
  opened_30d : ℚ
  opened_90d : ℚ
  without_response_24h : ℚ
  without_response_7d : ℚ
  without_response_30d : ℚ
  stale_30d : ℚ
  stale_60d : ℚ
  stale_90d : ℚ
  reopen_rate : ℚ
  response_time : ResponseTimeQ
deriving Repr, DecidableEq

/-- Pull-request block of a daily snapshot (`DailySnapshot.pulls`). -/
structure SnapPulls where
  open_ : ℚ
  merged_7d : ℚ
  merged_30d : ℚ
  merged_90d : ℚ
  opened_7d : ℚ
  opened_30d : ℚ
  opened_90d : ℚ
  closed_not_merged_90d : ℚ
  draft_count : ℚ
  without_review_24h : ℚ
  without_review_7d : ℚ
  review_time : ResponseTimeQ
  merge_time : MergeTimeQ
  by_size : BySizeQ
deriving Repr, DecidableEq

/-- Repository counters of a daily snapshot. -/
structure SnapRepo where
  stars : ℚ
  forks : ℚ
deriving Repr, DecidableEq

/-- Contributor block of a daily snapshot. -/
structure SnapContributors where
  total : ℚ
  active_30d : ℚ
  first_time_30d : ℚ
deriving Repr, DecidableEq

/-- Model of `DailySnapshot` as read by `src/data/retention.ts` (all
numeric fields as exact rationals; the `?? 0` fallbacks in the code are the
identity under this declared shape). -/
structure DailySnapshot where
  date : String
  issues : SnapIssues
  pulls : SnapPulls
  repository : SnapRepo
  contributors : SnapContributors
deriving Repr, DecidableEq

/-- Model of the `avg` helper of `consolidateMonthlyData`
(`src/data/retention.ts`): `Math.round(reduce(..) / len)`. -/
def snapAvg (snapshots : List DailySnapshot) (getter : DailySnapshot → ℚ) : ℚ :=
  (mathRound (snapshots.foldl (fun sum s => sum + getter s) 0 / snapshots.length) : ℚ)

/-- Model of the `avgFloat` helper of `consolidateMonthlyData`:
`Math.round((reduce(..) / len) * 10) / 10`. -/
def snapAvgFloat (snapshots : List DailySnapshot) (getter : DailySnapshot → ℚ) : ℚ :=
  (mathRound ((snapshots.foldl (fun sum s => sum + getter s) 0 / snapshots.length) * 10) : ℚ) / 10

/-- Model of `Math.max(...list)` for the non-empty lists it is applied to
(`Math.max()` of an empty spread is -Infinity; `consolidateSnapshots` skips
empty groups, so the empty case is unreachable and totalized to 0). -/
def jsMax : List ℚ → ℚ
  | [] => 0
  | h :: t => t.foldl max h

/-- Default snapshot used only to totalize the `snapshots[length - 1]`
access (the code never consolidates an empty group). -/
def defaultSnapshot : DailySnapshot :=
  { date := ""
    issues :=
      { open_ := 0
        closed_7d := 0
        closed_30d := 0
        closed_90d := 0
        opened_7d := 0
        opened_30d := 0
        opened_90d := 0
        without_response_24h := 0
        without_response_7d := 0
        without_response_30d := 0
        stale_30d := 0
        stale_60d := 0
        stale_90d := 0
        reopen_rate := 0
        response_time :=
          { avg_hours := 0
            median_hours := 0
            p90_hours := 0
            p95_hours := 0 } }
    pulls :=
      { open_ := 0
        merged_7d := 0
        merged_30d := 0
        merged_90d := 0
        opened_7d := 0
        opened_30d := 0
        opened_90d := 0
        closed_not_merged_90d := 0
        draft_count := 0
        without_review_24h := 0
        without_review_7d := 0
        review_time :=
          { avg_hours := 0
            median_hours := 0
            p90_hours := 0
            p95_hours := 0 }
        merge_time :=
          { avg_hours := 0
            median_hours := 0 }
        by_size :=
          { small := 0
            medium := 0
            large := 0 } }
    repository :=
      { stars := 0
        forks := 0 }
    contributors :=
      { total := 0
        active_30d := 0
        first_time_30d := 0 } }

/-- Model of `consolidateMonthlyData` from `src/data/retention.ts` (the
current, full-field revision at lines 259–338): averages for count-like and
rate-like fields, maxima for stars, forks and total contributors, the last
snapshot's value for `first_time_30d`, and `<monthKey>-01` as the date. -/
def consolidateMonthlyData (monthKey : String) (snapshots : List DailySnapshot) :
    DailySnapshot :=
  let lastSnapshot := snapshots.getLastD defaultSnapshot
  { date := monthKey ++ "-01"
    issues :=
      { open_ := snapAvg snapshots (fun s => s.issues.open_)
        closed_7d := snapAvg snapshots (fun s => s.issues.closed_7d)
        closed_30d := snapAvg snapshots (fun s => s.issues.closed_30d)
        closed_90d := snapAvg snapshots (fun s => s.issues.closed_90d)
        opened_7d := snapAvg snapshots (fun s => s.issues.opened_7d)
        opened_30d := snapAvg snapshots (fun s => s.issues.opened_30d)
        opened_90d := snapAvg snapshots (fun s => s.issues.opened_90d)
        without_response_24h := snapAvg snapshots (fun s => s.issues.without_response_24h)
        without_response_7d := snapAvg snapshots (fun s => s.issues.without_response_7d)
        without_response_30d := snapAvg snapshots (fun s => s.issues.without_response_30d)
        stale_30d := snapAvg snapshots (fun s => s.issues.stale_30d)
        stale_60d := snapAvg snapshots (fun s => s.issues.stale_60d)
        stale_90d := snapAvg snapshots (fun s => s.issues.stale_90d)
        reopen_rate := snapAvgFloat snapshots (fun s => s.issues.reopen_rate)
        response_time :=
          { avg_hours := snapAvgFloat snapshots (fun s => s.issues.response_time.avg_hours)
            median_hours := snapAvgFloat snapshots (fun s => s.issues.response_time.median_hours)
            p90_hours := snapAvgFloat snapshots (fun s => s.issues.response_time.p90_hours)
            p95_hours := snapAvgFloat snapshots (fun s => s.issues.response_time.p95_hours) } }
    pulls :=
      { open_ := snapAvg snapshots (fun s => s.pulls.open_)
        merged_7d := snapAvg snapshots (fun s => s.pulls.merged_7d)
        merged_30d := snapAvg snapshots (fun s => s.pulls.merged_30d)
        merged_90d := snapAvg snapshots (fun s => s.pulls.merged_90d)
        opened_7d := snapAvg snapshots (fun s => s.pulls.opened_7d)
        opened_30d := snapAvg snapshots (fun s => s.pulls.opened_30d)
        opened_90d := snapAvg snapshots (fun s => s.pulls.opened_90d)
        closed_not_merged_90d := snapAvg snapshots (fun s => s.pulls.closed_not_merged_90d)
        draft_count := snapAvg snapshots (fun s => s.pulls.draft_count)
        without_review_24h := snapAvg snapshots (fun s => s.pulls.without_review_24h)
        without_review_7d := snapAvg snapshots (fun s => s.pulls.without_review_7d)
        review_time :=
          { avg_hours := snapAvgFloat snapshots (fun s => s.pulls.review_time.avg_hours)
            median_hours := snapAvgFloat snapshots (fun s => s.pulls.review_time.median_hours)
            p90_hours := snapAvgFloat snapshots (fun s => s.pulls.review_time.p90_hours)
            p95_hours := snapAvgFloat snapshots (fun s => s.pulls.review_time.p95_hours) }
        merge_time :=
          { avg_hours := snapAvgFloat snapshots (fun s => s.pulls.merge_time.avg_hours)
            median_hours := snapAvgFloat snapshots (fun s => s.pulls.merge_time.median_hours) }
        by_size :=
          { small := snapAvg snapshots (fun s => s.pulls.by_size.small)
            medium := snapAvg snapshots (fun s => s.pulls.by_size.medium)
            large := snapAvg snapshots (fun s => s.pulls.by_size.large) } }
    repository :=
      { stars := jsMax (snapshots.map (fun s => s.repository.stars))
        forks := jsMax (snapshots.map (fun s => s.repository.forks)) }
    contributors :=
      { total := jsMax (snapshots.map (fun s => s.contributors.total))
        active_30d := snapAvg snapshots (fun s => s.contributors.active_30d)
        first_time_30d := lastSnapshot.contributors.first_time_30d } }

/-- Numeric value of an ASCII digit character. -/
def digitVal (c : Char) : ℕ := c.toNat - 48

/-- Model of `parseDateFromFilename` (`src/data/retention.ts`): match
`^\d{4}-\d{2}-\d{2}\.json$` and return the year/month/day digits (the
`Date` object construction and its validity are handled separately). -/
def parseDaily (name : String) : Option (ℕ × ℕ × ℕ) :=
  match name.toList with
  | [y1, y2, y3, y4, s1, m1, m2, s2, d1, d2, e1, e2, e3, e4, e5] =>
    if y1.isDigit && y2.isDigit && y3.isDigit && y4.isDigit && s1 == '-' &&
        m1.isDigit && m2.isDigit && s2 == '-' && d1.isDigit && d2.isDigit &&
        e1 == '.' && e2 == 'j' && e3 == 's' && e4 == 'o' && e5 == 'n' then
      some (digitVal y1 * 1000 + digitVal y2 * 100 + digitVal y3 * 10 + digitVal y4,
            (digitVal m1 * 10 + digitVal m2, digitVal d1 * 10 + digitVal d2))
    else none
  | _ => none

/-- Gregorian leap-year test. -/
def isLeapYear (y : ℕ) : Bool := (y % 4 == 0 && !(y % 100 == 0)) || y % 400 == 0

/-- Days in a Gregorian month. -/
def daysInMonth (y m : ℕ) : ℕ :=
  if m = 2 then (if isLeapYear y then 29 else 28)
  else if m = 4 ∨ m = 6 ∨ m = 9 ∨ m = 11 then 30 else 31

/-- Calendar validity of a parsed `YYYY-MM-DD` (JavaScript's ISO date
parser yields an Invalid Date outside these bounds). -/
def validYMD (y m d : ℕ) : Bool :=
  decide (1 ≤ m) && decide (m ≤ 12) && decide (1 ≤ d) && decide (d ≤ daysInMonth y m)

/-- Days since the Unix epoch of a civil date (standard Gregorian
day-count formula; all inputs here have four-digit years, so the integer
divisions are on non-negative operands). -/
def daysFromCivil (y m d : ℕ) : ℤ :=
  let yAdj : ℤ := if m ≤ 2 then (y : ℤ) - 1 else (y : ℤ)
  let era : ℤ := yAdj / 400
  let yoe : ℤ := yAdj - era * 400
  let mp : ℤ := if 2 < m then (m : ℤ) - 3 else (m : ℤ) + 9
  let doy : ℤ := (153 * mp + 2) / 5 + (d : ℤ) - 1
  let doe : ℤ := yoe * 365 + yoe / 4 - yoe / 100 + doy
  era * 146097 + doe - 719468

/-- Epoch milliseconds of `new Date("YYYY-MM-DD")` for a valid date. -/
def dateMsOf (y m d : ℕ) : ℤ := daysFromCivil y m d * 86400000

/-- Two-digit zero-padded rendering. -/
def pad2 (n : ℕ) : String := String.mk [Nat.digitChar (n / 10 % 10), Nat.digitChar (n % 10)]

/-- Four-digit zero-padded rendering. -/
def pad4 (n : ℕ) : String :=
  String.mk [Nat.digitChar (n / 1000 % 10), Nat.digitChar (n / 100 % 10),
    Nat.digitChar (n / 10 % 10), Nat.digitChar (n % 10)]

/-- Model of `getMonthKey` (`date.toISOString().slice(0, 7)`) on a valid
date: the `YYYY-MM` rendering of its year and month. -/
def getMonthKey (y m : ℕ) : String := pad4 y ++ "-" ++ pad2 m

/-- A file-system event of the consolidation run, in execution order. -/
inductive FsEvent where
  | write (name : String) (content : DailySnapshot)
  | delete (name : String)
deriving Repr, DecidableEq

/-- One month group of the `monthlyGroups` map: key and collected
`(filename, snapshot)` entries in insertion order. -/
abbrev MonthGroup : Type := String × List (String × DailySnapshot)

/-- Model of the get-or-create-and-push update of the `monthlyGroups` map
(insertion-ordered, like a JavaScript `Map`). -/
def addEntry : List MonthGroup → String → (String × DailySnapshot) → List MonthGroup
  | [], k, e => [(k, [e])]
  | (k', es) :: rest, k, e =>
    if k' = k then (k', es ++ [e]) :: rest
    else (k', es) :: addEntry rest k e

/-- Model of the grouping loop of `consolidateSnapshots`
(`src/data/retention.ts`): skip `-monthly` files and non-matching names,
skip dates at or after the cutoff, group the rest by month key; a
pattern-matching but calendar-invalid name makes `toISOString` throw a
RangeError, which aborts the whole run before any write. -/
def buildGroups (cutoffMs : ℤ) : List (String × DailySnapshot) → List MonthGroup →
    Except String (List MonthGroup)
  | [], acc => .ok acc
  | e :: rest, acc =>
    if strContains e.1 "-monthly" then buildGroups cutoffMs rest acc
    else
      match parseDaily e.1 with
      | none => buildGroups cutoffMs rest acc
      | some (y, m, d) =>
        if validYMD y m d then
          if cutoffMs ≤ dateMsOf y m d then buildGroups cutoffMs rest acc
          else buildGroups cutoffMs rest (addEntry acc (getMonthKey y m) e)
        else .error "Invalid time value"

/-- Model of the write-then-delete loop of `consolidateSnapshots`: for each
group, write the monthly rollup file, then delete the group's daily files. -/
def emitGroups : List MonthGroup → List FsEvent
  | [] => []
  | g :: rest =>
    (if g.2.length = 0 then []
     else FsEvent.write (g.1 ++ "-monthly.json")
        (consolidateMonthlyData g.1 (g.2.map Prod.snd)) ::
       g.2.map (fun e => FsEvent.delete e.1)) ++ emitGroups rest

/-- Model of `consolidateSnapshots` from `src/data/retention.ts`, with the
directory contents supplied as `(filename, parsed snapshot)` pairs and the
cutoff (`now - 90 days`, in ms) explicit.  The result is the ordered list
of file-system events the run performs, or the thrown error. -/
def consolidateSnapshots (entries : List (String × DailySnapshot))
    (cutoffMs : ℤ) : Except String (List FsEvent) :=
  (buildGroups cutoffMs entries []).map emitGroups

/-- Helper: whether an entry is grouped (a daily file older than the
cutoff). -/
def oldDaily (cutoffMs : ℤ) (e : String × DailySnapshot) : Bool :=
  !(strContains e.1 "-monthly") &&
    (match parseDaily e.1 with
     | some (y, m, d) => validYMD y m d && decide (dateMsOf y m d < cutoffMs)
     | none => false)

/-- Helper: the month key of a daily file name (empty for non-matching
names). -/
def monthKeyOfName (name : String) : String :=
  match parseDaily name with
  | some (y, m, _) => getMonthKey y m
  | none => ""

/-- Helper: the entries consolidation will fold, in directory order. -/
def oldEntries (entries : List (String × DailySnapshot)) (cutoffMs : ℤ) :
    List (String × DailySnapshot) :=
  entries.filter (oldDaily cutoffMs)

/-- Helper: the consolidated group of one month, in directory order. -/
def groupEntries (entries : List (String × DailySnapshot)) (cutoffMs : ℤ)
    (k : String) : List (String × DailySnapshot) :=
  (oldEntries entries cutoffMs).filter (fun e => monthKeyOfName e.1 = k)

/-- Helper: association lookup in the month-group accumulator. -/
def lookupGroup (groups : List MonthGroup) (k : String) :
    Option (List (String × DailySnapshot)) :=
  match groups.find? (fun g => g.1 == k) with
  | some g => some g.2
  | none => none

/-- Helper: the grouping fold of `consolidateSnapshots` restricted to the
entries it actually groups. -/
def extendGroups (acc : List MonthGroup) (es : List (String × DailySnapshot)) :
    List MonthGroup :=
  es.foldl (fun acc e => addEntry acc (monthKeyOfName e.1) e) acc

theorem lookupGroup_cons (k' : String) (es : List (String × DailySnapshot))
    (rest : List MonthGroup) (q : String) :
    lookupGroup ((k', es) :: rest) q =
      if k' = q then some es else lookupGroup rest q := by
  unfold lookupGroup
  by_cases h : k' = q
  · subst h
    simp [List.find?]
  · have hb : (k' == q) = false := by
      rw [beq_eq_false_iff_ne]; exact h
    simp [List.find?, hb, h]

theorem lookupGroup_addEntry :
    ∀ (acc : List MonthGroup) (k : String) (e : String × DailySnapshot) (q : String),
      lookupGroup (addEntry acc k e) q =
        if q = k then some ((lookupGroup acc k).getD [] ++ [e])
        else lookupGroup acc q := by
  intro acc
  induction acc with
  | nil =>
    intro k e q
    show lookupGroup [(k, [e])] q = _
    rw [lookupGroup_cons]
    by_cases h : q = k
    · rw [if_pos h.symm, if_pos h]
      rfl
    · rw [if_neg (fun hc => h hc.symm), if_neg h]
  | cons hd rest ih =>
    intro k e q
    obtain ⟨n, es⟩ := hd
    unfold addEntry
    by_cases hn : n = k
    · subst hn
      rw [if_pos rfl, lookupGroup_cons, lookupGroup_cons, lookupGroup_cons]
      by_cases hp : q = n
      · rw [if_pos hp.symm, if_pos hp, if_pos rfl]
        rfl
      · rw [if_neg (fun hc => hp hc.symm), if_neg hp,
          if_neg (fun hc => hp hc.symm)]
    · rw [if_neg hn, lookupGroup_cons, lookupGroup_cons, lookupGroup_cons]
      by_cases hnp : n = q
      · have hpn : ¬ q = k := by
          intro hc
          exact hn (hnp.symm ▸ hc)
        rw [if_pos hnp, if_neg hn, if_neg hpn, if_pos hnp]
      · rw [if_neg hnp, if_neg hn, ih]
        by_cases hp : q = k
        · rw [if_pos hp, if_pos hp]
        · rw [if_neg hp, if_neg hp, if_neg hnp]

theorem keys_addEntry :
    ∀ (acc : List MonthGroup) (k : String) (e : String × DailySnapshot),
      (addEntry acc k e).map Prod.fst =
        if k ∈ acc.map Prod.fst then acc.map Prod.fst
        else acc.map Prod.fst ++ [k] := by
  intro acc
  induction acc with
  | nil => intro k e; simp [addEntry]
  | cons hd rest ih =>
    intro k e
    obtain ⟨k', es⟩ := hd
    unfold addEntry
    by_cases hk : k' = k
    · subst hk
      rw [if_pos rfl]
      simp [List.mem_cons]
    · rw [if_neg hk]
      simp only [List.map_cons, ih]
      by_cases hm : k ∈ rest.map Prod.fst
      · rw [if_pos hm, if_pos (by simp [List.mem_cons, hm])]
      · rw [if_neg hm, if_neg (by
          simp only [List.mem_cons]
          rintro (h | h)
          · exact hk h.symm
          · exact hm h)]
        simp

theorem keys_nodup_addEntry {acc : List MonthGroup}
    (h : (acc.map Prod.fst).Nodup) (k : String) (e : String × DailySnapshot) :
    ((addEntry acc k e).map Prod.fst).Nodup := by
  rw [keys_addEntry]
  by_cases hm : k ∈ acc.map Prod.fst
  · rw [if_pos hm]; exact h
  · rw [if_neg hm]
    rw [List.nodup_append]
    exact ⟨h, List.nodup_singleton _, by
      intro a ha hb
      rw [List.mem_singleton] at hb
      exact hm (hb ▸ ha)⟩

theorem keys_nodup_extendGroups :
    ∀ (es : List (String × DailySnapshot)) (acc : List MonthGroup),
      (acc.map Prod.fst).Nodup → ((extendGroups acc es).map Prod.fst).Nodup := by
  intro es
  induction es with
  | nil => intro acc h; exact h
  | cons e rest ih =>
    intro acc h
    exact ih _ (keys_nodup_addEntry h _ _)

theorem lookupGroup_extendGroups :
    ∀ (es : List (String × DailySnapshot)) (acc : List MonthGroup) (q : String),
      lookupGroup (extendGroups acc es) q =
        match lookupGroup acc q, es.filter (fun e => monthKeyOfName e.1 = q) with
        | none, [] => none
        | none, fs => some fs
        | some g, fs => some (g ++ fs) := by
  intro es
  induction es with
  | nil =>
    intro acc q
    show lookupGroup acc q = _
    cases h : lookupGroup acc q <;> simp
  | cons e rest ih =>
    intro acc q
    show lookupGroup (extendGroups (addEntry acc (monthKeyOfName e.1) e) rest) q = _
    rw [ih]
    by_cases hq : monthKeyOfName e.1 = q
    · rw [lookupGroup_addEntry, if_pos hq.symm]
      rw [List.filter_cons_of_pos (by simp [hq])]
      rw [← hq]
      cases h : lookupGroup acc (monthKeyOfName e.1) with
      | none =>
        cases hf : rest.filter (fun e' => monthKeyOfName e'.1 = monthKeyOfName e.1) <;>
          simp [h, hf]
      | some g =>
        cases hf : rest.filter (fun e' => monthKeyOfName e'.1 = monthKeyOfName e.1) <;>
          simp [h, hf]
    · rw [lookupGroup_addEntry, if_neg (fun hc => hq hc.symm)]
      rw [List.filter_cons_of_neg (by simp [hq])]

theorem lookupGroup_of_mem :
    ∀ {groups : List MonthGroup}, ((groups.map Prod.fst).Nodup) →
      ∀ {g : MonthGroup}, g ∈ groups → lookupGroup groups g.1 = some g.2 := by
  intro groups
  induction groups with
  | nil => intro _ g hm; simp at hm
  | cons hd rest ih =>
    intro hnd g hm
    obtain ⟨k', es⟩ := hd
    rw [lookupGroup_cons]
    rw [List.map_cons, List.nodup_cons] at hnd
    rcases List.mem_cons.mp hm with hm | hm
    · subst hm
      rw [if_pos rfl]
    · by_cases hk : k' = g.1
      · exfalso
        apply hnd.1
        rw [hk]
        exact List.mem_map.mpr ⟨g, hm, rfl⟩
      · rw [if_neg hk]
        exact ih hnd.2 hm

theorem mem_of_lookupGroup {groups : List MonthGroup} {q : String}
    {es : List (String × DailySnapshot)} (h : lookupGroup groups q = some es) :
    (q, es) ∈ groups := by
  unfold lookupGroup at h
  cases hf : groups.find? (fun g => g.1 == q) with
  | none => rw [hf] at h; exact absurd h (by simp)
  | some g0 =>
    rw [hf] at h
    injection h with h
    have h1 := List.find?_some hf
    have h2 := List.mem_of_find?_eq_some hf
    rw [beq_iff_eq] at h1
    have : (q, es) = g0 := by
      obtain ⟨a, b⟩ := g0
      simp only at h1 h
      rw [h1, h]
    rw [this]
    exact h2

theorem buildGroups_cons_monthly (cutoffMs : ℤ) (e : String × DailySnapshot)
    (rest : List (String × DailySnapshot)) (acc : List MonthGroup)
    (h : strContains e.1 "-monthly" = true) :
    buildGroups cutoffMs (e :: rest) acc = buildGroups cutoffMs rest acc := by
  simp only [buildGroups]
  rw [if_pos h]

theorem buildGroups_cons_noparse (cutoffMs : ℤ) (e : String × DailySnapshot)
    (rest : List (String × DailySnapshot)) (acc : List MonthGroup)
    (h1 : strContains e.1 "-monthly" = false) (h2 : parseDaily e.1 = none) :
    buildGroups cutoffMs (e :: rest) acc = buildGroups cutoffMs rest acc := by
  simp only [buildGroups]
  rw [if_neg (by simp [h1]), h2]

theorem buildGroups_cons_parsed (cutoffMs : ℤ) (e : String × DailySnapshot)
    (rest : List (String × DailySnapshot)) (acc : List MonthGroup) (y m d : ℕ)
    (h1 : strContains e.1 "-monthly" = false)
    (h2 : parseDaily e.1 = some (y, m, d)) :
    buildGroups cutoffMs (e :: rest) acc =
      if validYMD y m d = true then
        (if cutoffMs ≤ dateMsOf y m d then buildGroups cutoffMs rest acc
         else buildGroups cutoffMs rest (addEntry acc (getMonthKey y m) e))
      else .error "Invalid time value" := by
  simp only [buildGroups]
  rw [if_neg (by simp [h1]), h2]

theorem buildGroups_ok (cutoffMs : ℤ) :
    ∀ (entries : List (String × DailySnapshot)) (acc : List MonthGroup),
      (∀ e ∈ entries, strContains e.1 "-monthly" = false →
        ∀ y m d, parseDaily e.1 = some (y, m, d) → validYMD y m d = true) →
      buildGroups cutoffMs entries acc =
        .ok (extendGroups acc (oldEntries entries cutoffMs)) := by
  intro entries
  induction entries with
  | nil => intro acc _; rfl
  | cons e rest ih =>
    intro acc hvalid
    have hrest : ∀ e' ∈ rest, strContains e'.1 "-monthly" = false →
        ∀ y m d, parseDaily e'.1 = some (y, m, d) → validYMD y m d = true :=
      fun e' he' => hvalid e' (List.mem_cons_of_mem _ he')
    by_cases hmon : strContains e.1 "-monthly" = true
    · rw [buildGroups_cons_monthly cutoffMs e rest acc hmon]
      have hod : oldDaily cutoffMs e = false := by
        unfold oldDaily
        rw [hmon]
        rfl
      rw [ih acc hrest]
      unfold oldEntries
      rw [List.filter_cons_of_neg (by simp [hod])]
    · have hmon' : strContains e.1 "-monthly" = false := by
        rw [Bool.not_eq_true] at hmon; exact hmon
      cases hp : parseDaily e.1 with
      | none =>
        rw [buildGroups_cons_noparse cutoffMs e rest acc hmon' hp]
        have hod : oldDaily cutoffMs e = false := by
          unfold oldDaily
          rw [hmon', hp]
          rfl
        rw [ih acc hrest]
        unfold oldEntries
        rw [List.filter_cons_of_neg (by simp [hod])]
      | some ymd =>
        obtain ⟨y, m, d⟩ := ymd
        have hv : validYMD y m d = true :=
          hvalid e (List.mem_cons_self _ _) hmon' y m d hp
        rw [buildGroups_cons_parsed cutoffMs e rest acc y m d hmon' hp, if_pos hv]
        by_cases hc : cutoffMs ≤ dateMsOf y m d
        · rw [if_pos hc]
          have hod : oldDaily cutoffMs e = false := by
            unfold oldDaily
            rw [hmon', hp]
            show (validYMD y m d && decide (dateMsOf y m d < cutoffMs)) = false
            rw [hv, Bool.true_and, decide_eq_false_iff_not]
            omega
          rw [ih acc hrest]
          unfold oldEntries
          rw [List.filter_cons_of_neg (by simp [hod])]
        · rw [if_neg hc]
          have hod : oldDaily cutoffMs e = true := by
            unfold oldDaily
            rw [hmon', hp]
            show (validYMD y m d && decide (dateMsOf y m d < cutoffMs)) = true
            rw [hv, Bool.true_and]
            rw [decide_eq_true_iff]
            omega
          have hkey : monthKeyOfName e.1 = getMonthKey y m := by
            unfold monthKeyOfName
            rw [hp]
          rw [ih (addEntry acc (getMonthKey y m) e) hrest]
          unfold oldEntries
          rw [List.filter_cons_of_pos (by simp [hod])]
          show _ = Except.ok (extendGroups (addEntry acc (monthKeyOfName e.1) e) _)
          rw [hkey]

theorem append_cancel_right_str {a b c : String} (h : a ++ c = b ++ c) : a = b := by
  have hd := congrArg String.data h
  rw [String.data_append, String.data_append] at hd
  exact String.ext (List.append_cancel_right hd)

theorem write_mem_emitGroups :
    ∀ (gs : List MonthGroup) (n : String) (M : DailySnapshot),
      FsEvent.write n M ∈ emitGroups gs ↔
        ∃ g ∈ gs, g.2 ≠ [] ∧ n = g.1 ++ "-monthly.json" ∧
          M = consolidateMonthlyData g.1 (g.2.map Prod.snd) := by
  intro gs
  induction gs with
  | nil => intro n M; simp [emitGroups]
  | cons g rest ih =>
    intro n M
    simp only [emitGroups, List.mem_append, ih]
    by_cases hz : g.2.length = 0
    · rw [if_pos hz]
      have hempty : g.2 = [] := List.length_eq_zero.mp hz
      constructor
      · rintro (h | ⟨g', hg', hne, hn, hM⟩)
        · simp at h
        · exact ⟨g', List.mem_cons_of_mem _ hg', hne, hn, hM⟩
      · rintro ⟨g', hg', hne, hn, hM⟩
        rcases List.mem_cons.mp hg' with hh | hh
        · subst hh
          exact absurd hempty hne
        · exact Or.inr ⟨g', hh, hne, hn, hM⟩
    · rw [if_neg hz]
      constructor
      · rintro (h | ⟨g', hg', h2⟩)
        · rcases List.mem_cons.mp h with hh | hh
          · injection hh with h1 h2
            exact ⟨g, List.mem_cons_self _ _,
              fun hc => hz (by rw [hc]; rfl), h1, h2⟩
          · exfalso
            rw [List.mem_map] at hh
            obtain ⟨e, _, he⟩ := hh
            exact FsEvent.noConfusion he
        · exact ⟨g', List.mem_cons_of_mem _ hg', h2⟩
      · rintro ⟨g', hg', hne, hn, hM⟩
        rcases List.mem_cons.mp hg' with hh | hh
        · subst hh
          left
          rw [hn, hM]
          exact List.mem_cons_self _ _
        · exact Or.inr ⟨g', hh, hne, hn, hM⟩

theorem delete_mem_emitGroups :
    ∀ (gs : List MonthGroup) (f : String),
      FsEvent.delete f ∈ emitGroups gs ↔ ∃ g ∈ gs, ∃ e ∈ g.2, f = e.1 := by
  intro gs
  induction gs with
  | nil => intro f; simp [emitGroups]
  | cons g rest ih =>
    intro f
    simp only [emitGroups, List.mem_append, ih]
    by_cases hz : g.2.length = 0
    · rw [if_pos hz]
      have hempty : g.2 = [] := List.length_eq_zero.mp hz
      constructor
      · rintro (h | ⟨g', hg', e, he, hf⟩)
        · simp at h
        · exact ⟨g', List.mem_cons_of_mem _ hg', e, he, hf⟩
      · rintro ⟨g', hg', e, he, hf⟩
        rcases List.mem_cons.mp hg' with hh | hh
        · subst hh
          rw [hempty] at he
          simp at he
        · exact Or.inr ⟨g', hh, e, he, hf⟩
    · rw [if_neg hz]
      constructor
      · rintro (h | ⟨g', hg', e, he, hf⟩)
        · rcases List.mem_cons.mp h with hh | hh
          · exact absurd hh (by simp)
          · rw [List.mem_map] at hh
            obtain ⟨e, he, hee⟩ := hh
            injection hee with hee
            exact ⟨g, List.mem_cons_self _ _, e, he, hee.symm⟩
        · exact ⟨g', List.mem_cons_of_mem _ hg', e, he, hf⟩
      · rintro ⟨g', hg', e, he, hf⟩
        rcases List.mem_cons.mp hg' with hh | hh
        · subst hh
          left
          apply List.mem_cons_of_mem
          rw [List.mem_map]
          exact ⟨e, he, by rw [hf]⟩
        · exact Or.inr ⟨g', hh, e, he, hf⟩

theorem emitGroups_write_before_delete :
    ∀ (gs : List MonthGroup),
      (∀ g ∈ gs, ∀ e ∈ g.2, monthKeyOfName e.1 = g.1) →
      ∀ (n : ℕ) (f : String),
        (emitGroups gs)[n]? = some (FsEvent.delete f) →
        ∃ m M, m < n ∧
          (emitGroups gs)[m]? =
            some (FsEvent.write (monthKeyOfName f ++ "-monthly.json") M) := by
  intro gs
  induction gs with
  | nil => intro _ n f h; simp [emitGroups] at h
  | cons g rest ih =>
    intro hkeys n f h
    have hkr : ∀ g' ∈ rest, ∀ e ∈ g'.2, monthKeyOfName e.1 = g'.1 :=
      fun g' hg' => hkeys g' (List.mem_cons_of_mem _ hg')
    by_cases hz : g.2.length = 0
    · have hemit : emitGroups (g :: rest) = emitGroups rest := by
        simp only [emitGroups, if_pos hz, List.nil_append]
      rw [hemit] at h ⊢
      exact ih hkr n f h
    · have hemit : emitGroups (g :: rest) =
          FsEvent.write (g.1 ++ "-monthly.json")
              (consolidateMonthlyData g.1 (g.2.map Prod.snd)) ::
            (g.2.map (fun e => FsEvent.delete e.1) ++ emitGroups rest) := by
        simp only [emitGroups, if_neg hz, List.cons_append]
      rw [hemit] at h ⊢
      cases n with
      | zero =>
        rw [List.getElem?_cons_zero] at h
        exact absurd h (by simp)
      | succ k =>
        rw [List.getElem?_cons_succ] at h
        by_cases hk : k < (g.2.map (fun e => FsEvent.delete e.1)).length
        · rw [List.getElem?_append_left hk, List.getElem?_map] at h
          cases he : g.2[k]? with
          | none => rw [he] at h; exact absurd h (by simp)
          | some e =>
            rw [he, Option.map_some'] at h
            injection h with h
            injection h with h
            have hmem : e ∈ g.2 := List.getElem?_mem he
            have hkey := hkeys g (List.mem_cons_self _ _) e hmem
            refine ⟨0, consolidateMonthlyData g.1 (g.2.map Prod.snd),
              Nat.succ_pos k, ?_⟩
            rw [List.getElem?_cons_zero, ← h, hkey]
        · push_neg at hk
          rw [List.getElem?_append_right hk] at h
          obtain ⟨m, M, hm, hw⟩ := ih hkr _ f h
          refine ⟨(g.2.map (fun e => FsEvent.delete e.1)).length + m + 1, M, by omega, ?_⟩
          rw [List.getElem?_cons_succ,
            List.getElem?_append_right (by omega)]
          rw [show (g.2.map (fun e => FsEvent.delete e.1)).length + m -
              (g.2.map (fun e => FsEvent.delete e.1)).length = m by omega]
          exact hw

/-- Helper: the name of a write event. -/
def writeName : FsEvent → Option String
  | .write n _ => some n
  | .delete _ => none

theorem filterMap_writeName_deletes (l : List (String × DailySnapshot)) :
    (l.map (fun e => FsEvent.delete e.1)).filterMap writeName = [] := by
  induction l with
  | nil => rfl
  | cons e rest ih => simp [writeName, ih]

theorem writeNames_emitGroups :
    ∀ gs : List MonthGroup,
      (emitGroups gs).filterMap writeName =
        (gs.filter (fun g => !(decide (g.2.length = 0)))).map
          (fun g => g.1 ++ "-monthly.json") := by
  intro gs
  induction gs with
  | nil => rfl
  | cons g rest ih =>
    simp only [emitGroups, List.filterMap_append, ih]
    by_cases hz : g.2.length = 0
    · rw [if_pos hz, List.filter_cons_of_neg (by simp [hz])]
      rfl
    · rw [if_neg hz, List.filter_cons_of_pos (by simp [hz])]
      simp only [List.filterMap_cons, writeName, filterMap_writeName_deletes,
        List.map_cons]
      rfl

theorem writeNames_nodup {gs : List MonthGroup}
    (hnd : (gs.map Prod.fst).Nodup) :
    ((emitGroups gs).filterMap writeName).Nodup := by
  rw [writeNames_emitGroups]
  have h1 : (gs.filter (fun g => !(decide (g.2.length = 0)))).map
      (fun g => g.1 ++ "-monthly.json") =
      ((gs.filter (fun g => !(decide (g.2.length = 0)))).map Prod.fst).map
        (fun s => s ++ "-monthly.json") := by
    rw [List.map_map]
    rfl
  rw [h1]
  apply List.Nodup.map
  · intro a b hab
    exact append_cancel_right_str hab
  · exact List.Nodup.sublist
      (List.Sublist.map _ (List.filter_sublist gs)) hnd

theorem le_foldl_max : ∀ (t : List ℚ) (a : ℚ), a ≤ t.foldl max a := by
  intro t
  induction t with
  | nil => intro a; exact le_refl a
  | cons b rest ih =>
    intro a
    exact le_trans (le_max_left a b) (ih (max a b))

theorem mem_le_foldl_max : ∀ (t : List ℚ) (a x : ℚ), x ∈ t → x ≤ t.foldl max a := by
  intro t
  induction t with
  | nil => intro a x hx; simp at hx
  | cons b rest ih =>
    intro a x hx
    rcases List.mem_cons.mp hx with h | h
    · subst h
      exact le_trans (le_max_right a x) (le_foldl_max rest (max a x))
    · exact ih (max a b) x h

theorem foldl_max_mem : ∀ (t : List ℚ) (a : ℚ), t.foldl max a = a ∨ t.foldl max a ∈ t := by
  intro t
  induction t with
  | nil => intro a; exact Or.inl rfl
  | cons b rest ih =>
    intro a
    rcases ih (max a b) with h | h
    · rcases max_choice a b with hm | hm
      · exact Or.inl (by rw [List.foldl_cons, h, hm])
      · exact Or.inr (by rw [List.foldl_cons, h, hm]; exact List.mem_cons_self _ _)
    · exact Or.inr (List.mem_cons_of_mem _ h)

theorem jsMax_spec (l : List ℚ) (hne : l ≠ []) :
    (∀ x ∈ l, x ≤ jsMax l) ∧ jsMax l ∈ l := by
  cases l with
  | nil => exact absurd rfl hne
  | cons h t =>
    constructor
    · intro x hx
      rcases List.mem_cons.mp hx with hh | hh
      · subst hh
        exact le_foldl_max t x
      · exact mem_le_foldl_max t h x hh
    · show t.foldl max h ∈ h :: t
      rcases foldl_max_mem t h with hh | hh
      · rw [hh]
        exact List.mem_cons_self _ _
      · exact List.mem_cons_of_mem _ hh

theorem foldl_add_map_sum {α : Type} (f : α → ℚ) :
    ∀ (l : List α) (a : ℚ), l.foldl (fun sum s => sum + f s) a = a + (l.map f).sum := by
  intro l
  induction l with
  | nil => intro a; simp
  | cons b rest ih =>
    intro a
    rw [List.foldl_cons, ih, List.map_cons, List.sum_cons]
    ring

theorem snapAvg_eq (snapshots : List DailySnapshot) (getter : DailySnapshot → ℚ) :
    snapAvg snapshots getter =
      (mathRound ((snapshots.map getter).sum / snapshots.length) : ℚ) := by
  unfold snapAvg
  rw [foldl_add_map_sum, zero_add]

theorem snapAvgFloat_eq (snapshots : List DailySnapshot) (getter : DailySnapshot → ℚ) :
    snapAvgFloat snapshots getter =
      (mathRound (((snapshots.map getter).sum / snapshots.length) * 10) : ℚ) / 10 := by
  unfold snapAvgFloat
  rw [foldl_add_map_sum, zero_add]

theorem groups_char (entries : List (String × DailySnapshot)) (cutoffMs : ℤ) :
    ((extendGroups [] (oldEntries entries cutoffMs)).map Prod.fst).Nodup ∧
    (∀ g ∈ extendGroups [] (oldEntries entries cutoffMs),
      g.2 = groupEntries entries cutoffMs g.1) ∧
    (∀ q : String, groupEntries entries cutoffMs q ≠ [] →
      (q, groupEntries entries cutoffMs q) ∈
        extendGroups [] (oldEntries entries cutoffMs)) := by
  refine ⟨keys_nodup_extendGroups _ [] (by simp), ?_, ?_⟩
  · intro g hg
    have hl := lookupGroup_of_mem
      (keys_nodup_extendGroups (oldEntries entries cutoffMs) [] (by simp)) hg
    rw [lookupGroup_extendGroups] at hl
    cases hf : (oldEntries entries cutoffMs).filter
        (fun e => monthKeyOfName e.1 = g.1) with
    | nil =>
      rw [hf] at hl
      exact absurd hl (by simp [lookupGroup])
    | cons a l =>
      rw [hf] at hl
      simp only [lookupGroup] at hl
      injection hl with hl
      unfold groupEntries
      rw [hf, ← hl]
  · intro q hq
    have hl : lookupGroup (extendGroups [] (oldEntries entries cutoffMs)) q =
        some (groupEntries entries cutoffMs q) := by
      rw [lookupGroup_extendGroups]
      unfold groupEntries at hq ⊢
      cases hf : (oldEntries entries cutoffMs).filter
          (fun e => monthKeyOfName e.1 = q) with
      | nil => exact absurd hf hq
      | cons a l => simp [lookupGroup]
    exact mem_of_lookupGroup hl

/-- C4 (corrected): on any snapshot directory whose daily file names encode
valid calendar dates, consolidation emits exactly one monthly write per
calendar month owning out-of-retention daily files; the written record is
`consolidateMonthlyData` of exactly that month's daily snapshots in
directory order — its count-like fields the rounded averages (nearest
integer; one decimal for rate fields) and its stars/forks/total-contributor
fields the group maxima — the deleted files are exactly the consolidated
dailies, and every delete of a daily file is preceded in the event order by
the write of its month's monthly record. -/
theorem C4_consolidation :
    ∀ (entries : List (String × DailySnapshot)) (cutoffMs : ℤ) (tr : List FsEvent),
      (∀ e ∈ entries, strContains e.1 "-monthly" = false →
        ∀ y m d, parseDaily e.1 = some (y, m, d) → validYMD y m d = true) →
      consolidateSnapshots entries cutoffMs = .ok tr →
      (∀ (k : String) (M : DailySnapshot),
        FsEvent.write (k ++ "-monthly.json") M ∈ tr →
        groupEntries entries cutoffMs k ≠ [] ∧
        M = consolidateMonthlyData k ((groupEntries entries cutoffMs k).map Prod.snd) ∧
        M.issues.open_ = (mathRound
          ((((groupEntries entries cutoffMs k).map Prod.snd).map
              (fun s => s.issues.open_)).sum /
            (((groupEntries entries cutoffMs k).map Prod.snd).length : ℚ)) : ℚ) ∧
        M.issues.reopen_rate = (mathRound
          (((((groupEntries entries cutoffMs k).map Prod.snd).map
              (fun s => s.issues.reopen_rate)).sum /
            (((groupEntries entries cutoffMs k).map Prod.snd).length : ℚ)) * 10) : ℚ) / 10 ∧
        (∀ s ∈ (groupEntries entries cutoffMs k).map Prod.snd,
          s.repository.stars ≤ M.repository.stars ∧
          s.repository.forks ≤ M.repository.forks ∧
          s.contributors.total ≤ M.contributors.total) ∧
        M.repository.stars ∈ ((groupEntries entries cutoffMs k).map Prod.snd).map
          (fun s => s.repository.stars) ∧
        M.repository.forks ∈ ((groupEntries entries cutoffMs k).map Prod.snd).map
          (fun s => s.repository.forks) ∧
        M.contributors.total ∈ ((groupEntries entries cutoffMs k).map Prod.snd).map
          (fun s => s.contributors.total)) ∧
      (∀ k : String, groupEntries entries cutoffMs k ≠ [] →
        ∃ M, FsEvent.write (k ++ "-monthly.json") M ∈ tr) ∧
      (tr.filterMap writeName).Nodup ∧
      (∀ f : String, FsEvent.delete f ∈ tr ↔
        f ∈ (oldEntries entries cutoffMs).map Prod.fst) ∧
      (∀ (n : ℕ) (f : String), tr[n]? = some (FsEvent.delete f) →
        ∃ m M, m < n ∧
          tr[m]? = some (FsEvent.write (monthKeyOfName f ++ "-monthly.json") M)) := by
  intro entries cutoffMs trace hvalid hok
  unfold consolidateSnapshots at hok
  rw [buildGroups_ok cutoffMs entries [] hvalid] at hok
  simp only [Except.map] at hok
  injection hok with hok
  subst hok
  obtain ⟨hnd, hval, hrev⟩ := groups_char entries cutoffMs
  refine ⟨?_, ?_, writeNames_nodup hnd, ?_, ?_⟩
  · -- each monthly write
    intro k M hw
    rw [write_mem_emitGroups] at hw
    obtain ⟨g, hg, hne, hn, hM⟩ := hw
    have hk : k = g.1 := append_cancel_right_str hn
    have hg2 : g.2 = groupEntries entries cutoffMs g.1 := hval g hg
    subst hk
    rw [← hg2]
    have hsnaps : (g.2.map Prod.snd) ≠ [] := by
      intro hc
      exact hne (by simpa using hc)
    have hstars := jsMax_spec (g.2.map Prod.snd |>.map (fun s => s.repository.stars))
      (by simpa using hsnaps)
    have hforks := jsMax_spec (g.2.map Prod.snd |>.map (fun s => s.repository.forks))
      (by simpa using hsnaps)
    have htotal := jsMax_spec (g.2.map Prod.snd |>.map (fun s => s.contributors.total))
      (by simpa using hsnaps)
    have hMs : M.repository.stars =
        jsMax ((g.2.map Prod.snd).map (fun s => s.repository.stars)) := by
      rw [hM]
      rfl
    have hMf : M.repository.forks =
        jsMax ((g.2.map Prod.snd).map (fun s => s.repository.forks)) := by
      rw [hM]
      rfl
    have hMt : M.contributors.total =
        jsMax ((g.2.map Prod.snd).map (fun s => s.contributors.total)) := by
      rw [hM]
      rfl
    refine ⟨hne, hM, ?_, ?_, ?_, ?_, ?_, ?_⟩
    · rw [hM]
      show snapAvg (g.2.map Prod.snd) (fun s => s.issues.open_) = _
      rw [snapAvg_eq]
    · rw [hM]
      show snapAvgFloat (g.2.map Prod.snd) (fun s => s.issues.reopen_rate) = _
      rw [snapAvgFloat_eq]
    · intro s hs
      exact ⟨hMs ▸ hstars.1 _ (List.mem_map_of_mem _ hs),
        hMf ▸ hforks.1 _ (List.mem_map_of_mem _ hs),
        hMt ▸ htotal.1 _ (List.mem_map_of_mem _ hs)⟩
    · rw [hMs]
      exact hstars.2
    · rw [hMf]
      exact hforks.2
    · rw [hMt]
      exact htotal.2
  · -- existence of the monthly write
    intro k hk
    refine ⟨consolidateMonthlyData k ((groupEntries entries cutoffMs k).map Prod.snd), ?_⟩
    rw [write_mem_emitGroups]
    exact ⟨(k, groupEntries entries cutoffMs k), hrev k hk, hk, rfl, rfl⟩
  · -- deletes are exactly the consolidated dailies
    intro f
    rw [delete_mem_emitGroups]
    constructor
    · rintro ⟨g, hg, e, he, hf⟩
      have hg2 := hval g hg
      rw [hg2] at he
      unfold groupEntries at he
      rw [List.mem_filter] at he
      exact List.mem_map.mpr ⟨e, he.1, hf.symm⟩
    · intro hf
      obtain ⟨e, he, hfe⟩ := List.mem_map.mp hf
      have hmem : e ∈ groupEntries entries cutoffMs (monthKeyOfName e.1) := by
        unfold groupEntries
        rw [List.mem_filter]
        exact ⟨he, by simp⟩
      have hne : groupEntries entries cutoffMs (monthKeyOfName e.1) ≠ [] := by
        intro hc
        rw [hc] at hmem
        simp at hmem
      exact ⟨(monthKeyOfName e.1, groupEntries entries cutoffMs (monthKeyOfName e.1)),
        hrev _ hne, e, hmem, hfe.symm⟩
  · -- write-before-delete ordering
    apply emitGroups_write_before_delete
    intro g hg e he
    have hg2 := hval g hg
    rw [hg2] at he
    unfold groupEntries at he
    rw [List.mem_filter] at he
    exact of_decide_eq_true he.2

/-- A daily snapshot with ten open issues and all other numeric fields
zero. -/
def snap10 : DailySnapshot :=
  { defaultSnapshot with issues := { defaultSnapshot.issues with open_ := 10 } }

/-- A daily snapshot with eleven open issues and all other numeric fields
zero. -/
def snap11 : DailySnapshot :=
  { defaultSnapshot with issues := { defaultSnapshot.issues with open_ := 11 } }

/-- A snapshot directory of 30 January 2020 daily files, each with ten
open issues. -/
def c4Entries : List (String × DailySnapshot) :=
  (List.range 30).map (fun i => (pad4 2020 ++ "-01-" ++ pad2 (i + 1) ++ ".json", snap10))

/-- A retention cutoff (September 2020) that makes every early-2020 daily
file out of retention. -/
def c4Cutoff : ℤ := 1600000000000

/-- The monthly record consolidation writes for the January 2020 group. -/
def c4Monthly : DailySnapshot :=
  consolidateMonthlyData "2020-01" (List.replicate 30 snap10)

/-- The event trace of consolidating the 30-file directory. -/
def c4Trace : List FsEvent :=
  FsEvent.write "2020-01-monthly.json" c4Monthly ::
    (List.range 30).map (fun i =>
      FsEvent.delete (pad4 2020 ++ "-01-" ++ pad2 (i + 1) ++ ".json"))

/-- Evaluation form of the date-validity side condition: whether a file
name either fails to parse or parses to a calendar-valid date. -/
def parseValidOk (s : String) : Bool :=
  match parseDaily s with
  | some (y, m, d) => validYMD y m d
  | none => true

/-- A `parseValidOk` name that parses yields a calendar-valid date. -/
theorem validYMD_of_parse (s : String) (y m d : ℕ)
    (hall : parseValidOk s = true)
    (hp : parseDaily s = some (y, m, d)) : validYMD y m d = true := by
  unfold parseValidOk at hall
  rw [hp] at hall
  exact hall

/-- The January 2020 monthly rollup of 30 all-tens snapshots has ten open
issues. -/
theorem c4Monthly_open : c4Monthly.issues.open_ = 10 := by
  show snapAvg (List.replicate 30 snap10) (fun s => s.issues.open_) = 10
  rw [snapAvg_eq]
  norm_num [List.map_replicate, List.sum_replicate, nsmul_eq_mul, snap10, mathRound]

/-- C4 witness: consolidating 30 January 2020 daily snapshots, each with
ten open issues, succeeds and emits one monthly write whose record is the
consolidation of exactly that group and carries ten open issues, and the
deleted files are exactly the 30 daily files. -/
theorem C4_consolidation_witness :
    consolidateSnapshots c4Entries c4Cutoff = Except.ok c4Trace ∧
    FsEvent.write ("2020-01" ++ "-monthly.json") c4Monthly ∈ c4Trace ∧
    c4Monthly = consolidateMonthlyData "2020-01"
      ((groupEntries c4Entries c4Cutoff "2020-01").map Prod.snd) ∧
    c4Monthly.issues.open_ = 10 ∧
    (∀ f : String, FsEvent.delete f ∈ c4Trace ↔
      f ∈ (oldEntries c4Entries c4Cutoff).map Prod.fst) := by
  have hvalid : ∀ e ∈ c4Entries, strContains e.1 "-monthly" = false →
      ∀ y m d, parseDaily e.1 = some (y, m, d) → validYMD y m d = true := by
    intro e he hm y m d hp
    simp only [c4Entries] at he
    obtain ⟨i, hi, rfl⟩ := List.mem_map.mp he
    rw [List.mem_range] at hi
    refine validYMD_of_parse _ y m d ?_ hp
    show parseValidOk (pad4 2020 ++ "-01-" ++ pad2 (i + 1) ++ ".json") = true
    interval_cases i <;> decide
  have hok : consolidateSnapshots c4Entries c4Cutoff = Except.ok c4Trace := by rfl
  obtain ⟨hw, hex, hnd, hdel, hord⟩ := C4_consolidation c4Entries c4Cutoff c4Trace hvalid hok
  have hwmem : FsEvent.write ("2020-01" ++ "-monthly.json") c4Monthly ∈ c4Trace := by
    show FsEvent.write "2020-01-monthly.json" c4Monthly ∈ c4Trace
    exact List.Mem.head _
  have hspec := hw "2020-01" c4Monthly hwmem
  exact ⟨hok, hwmem, hspec.2.1, c4Monthly_open, hdel⟩

/-- A directory with two February 2020 daily files whose open-issue counts
are 10 and 11. -/
def c4aEntries : List (String × DailySnapshot) :=
  [("2020-02-01.json", snap10), ("2020-02-02.json", snap11)]

/-- The monthly record consolidation writes for that two-file group. -/
def c4aMonthly : DailySnapshot := consolidateMonthlyData "2020-02" [snap10, snap11]

/-- C4 counterexample to the literal wording: the stored monthly
open-issue count is Math.round of the group average (11 here), not the
average itself (21/2); count-like fields hold rounded averages. -/
theorem C4_consolidation_counterexample :
    consolidateSnapshots c4aEntries c4Cutoff =
      Except.ok [FsEvent.write "2020-02-monthly.json" c4aMonthly,
        FsEvent.delete "2020-02-01.json", FsEvent.delete "2020-02-02.json"] ∧
    (([snap10, snap11].map (fun s => s.issues.open_)).sum / 2 : ℚ) = 21 / 2 ∧
    c4aMonthly.issues.open_ = 11 ∧
    c4aMonthly.issues.open_ ≠
      ([snap10, snap11].map (fun s => s.issues.open_)).sum / 2 := by
  have hs : (([snap10, snap11].map (fun s => s.issues.open_)).sum / 2 : ℚ) = 21 / 2 := by
    norm_num [snap10, snap11]
  have ho : c4aMonthly.issues.open_ = 11 := by
    show snapAvg [snap10, snap11] (fun s => s.issues.open_) = 11
    rw [snapAvg_eq]
    norm_num [snap10, snap11, mathRound]
  refine ⟨rfl, hs, ho, ?_⟩
  rw [ho, hs]
  norm_num

end RepoTracker
